import Mathlib

/-!
Verification of the nova-proxy cookie-rewriting library, client orchestration
helpers, and server upgrade routing.

JavaScript strings are modelled as `List Char`; the JS string methods used by
the source (split, trim, indexOf, substring, toLowerCase, startsWith, endsWith,
parseInt) are given as executable definitions below.  JS numbers that the code
stores in a cookie's Max-Age field are modelled as `Option Int`, where `none`
models NaN (parseInt of a non-numeric string) and `some i` an exact integer;
JS integers are exact only below 2 ^ 53, which the round-trip theorem carries
as a hypothesis.
-/

namespace NovaProxy

/-- JS whitespace as recognised by String.prototype.trim and the regex
class \s : tab, LF, VT, FF, CR, space, NBSP, BOM and the Unicode space
separators. -/
def isJsSpace (c : Char) : Bool :=
  c.toNat = 9 || c.toNat = 10 || c.toNat = 11 || c.toNat = 12 || c.toNat = 13 ||
  c.toNat = 32 || c.toNat = 160 || c.toNat = 0x1680 ||
  (0x2000 ≤ c.toNat && c.toNat ≤ 0x200a) ||
  c.toNat = 0x2028 || c.toNat = 0x2029 || c.toNat = 0x202f ||
  c.toNat = 0x205f || c.toNat = 0x3000 || c.toNat = 0xfeff

/-- ASCII lower casing of one character, the fragment of
String.prototype.toLowerCase the cookie code exercises (attribute keywords and
host names are ASCII). -/
def toLowerJS (c : Char) : Char :=
  if 65 ≤ c.toNat ∧ c.toNat ≤ 90 then Char.ofNat (c.toNat + 32) else c

/-- Lower case a JS string. -/
def toLowerL (l : List Char) : List Char := l.map toLowerJS

/-- JS String.prototype.trim: drop leading and trailing whitespace. -/
def jsTrim (l : List Char) : List Char :=
  ((l.dropWhile isJsSpace).reverse.dropWhile isJsSpace).reverse

/-- JS String.prototype.split with a one-character separator: always returns
at least one (possibly empty) segment. -/
def splitOnChar (sep : Char) : List Char → List (List Char)
  | [] => [[]]
  | c :: cs =>
    if c = sep then
      [] :: splitOnChar sep cs
    else
      match splitOnChar sep cs with
      | [] => [[c]]
      | p :: ps => (c :: p) :: ps

/-- JS String.prototype.startsWith: pat is a prefix of l. -/
def jsStartsWith (pat : List Char) (l : List Char) : Bool :=
  match pat, l with
  | [], _ => true
  | _ :: _, [] => false
  | p :: ps, c :: cs => p = c && jsStartsWith ps cs

/-- JS String.prototype.endsWith: pat is a suffix of l. -/
def jsEndsWith (pat : List Char) (l : List Char) : Bool :=
  jsStartsWith pat.reverse l.reverse

/-- JS String.prototype.indexOf for one character (none models -1). -/
def firstIdxOf (c : Char) : List Char → Option Nat
  | [] => none
  | x :: xs =>
    if x = c then some 0
    else (firstIdxOf c xs).map (· + 1)

/-- Decimal digit character for n (callers pass a value below 10). -/
def digitChar (n : Nat) : Char :=
  match n with
  | 0 => '0' | 1 => '1' | 2 => '2' | 3 => '3' | 4 => '4'
  | 5 => '5' | 6 => '6' | 7 => '7' | 8 => '8' | _ => '9'

/-- Value of a decimal digit character. -/
def digitVal (c : Char) : Nat := c.toNat - 48

/-- Digit test, 0x30..0x39. -/
def isDigitChar (c : Char) : Bool := 48 ≤ c.toNat && c.toNat ≤ 57

/-- Decimal rendering of a natural number, most significant digit first
(JS Number.prototype.toString for exact non-negative integers). -/
def natToChars (n : Nat) (acc : List Char := []) : List Char :=
  let d := digitChar (n % 10)
  if h : n < 10 then d :: acc else natToChars (n / 10) (d :: acc)
termination_by n
decreasing_by exact Nat.div_lt_self (by omega) (by omega)

/-- Decimal rendering of a JS number holding an exact integer; a negative
value is rendered with a leading minus sign.  JS switches to exponential
notation for magnitudes at or above 1e21, so this plain-decimal rendering
matches JS number-to-string only below that; theorems that rely on
serialization round-tripping therefore restrict Max-Age to the
exactly-representable range by hypothesis. -/
def intToChars (i : Int) : List Char :=
  if i < 0 then '-' :: natToChars i.natAbs else natToChars i.natAbs

/-- Rendering of the JS number stored in a Max-Age field: NaN prints as
"NaN", exact integers in decimal (see intToChars for the range where this
matches JS). -/
def jsNumToChars : Option Int → List Char
  | none => 'N' :: 'a' :: 'N' :: []
  | some i => intToChars i

/-- Value of a non-empty digit string, most significant digit first. -/
def digitsVal (l : List Char) : Nat := l.foldl (fun a c => a * 10 + digitVal c) 0

/-- Maximal leading digit run of l as a number; none when l does not start
with a digit. -/
def parseDigits (l : List Char) : Option Nat :=
  let ds := l.takeWhile isDigitChar
  if ds = [] then none else some (digitsVal ds)

/-- JS parseInt(s, 10): skip leading whitespace, optional sign, then the
maximal digit run; none models NaN.  The result here is an exact integer,
while JS rounds to the nearest double above 2^53; theorems that rely on
exactness carry a natAbs < 2^53 hypothesis on the parsed Max-Age. -/
def jsParseInt (l : List Char) : Option Int :=
  if (l.dropWhile isJsSpace).isEmpty then none
  else if (l.dropWhile isJsSpace).headD ' ' = '-' then
    (parseDigits (l.dropWhile isJsSpace).tail).map (fun n => -(n : Int))
  else if (l.dropWhile isJsSpace).headD ' ' = '+' then
    (parseDigits (l.dropWhile isJsSpace).tail).map (fun n => (n : Int))
  else (parseDigits (l.dropWhile isJsSpace)).map (fun n => (n : Int))

/-- Split l at the first occurrence of the substring pat, returning the part
before and the part after the occurrence; none when pat does not occur. -/
def splitAtSub (pat : List Char) : List Char → Option (List Char × List Char)
  | [] => if jsStartsWith pat [] then some ([], []) else none
  | c :: cs =>
    if jsStartsWith pat (c :: cs) then some ([], (c :: cs).drop pat.length)
    else
      match splitAtSub pat cs with
      | some (pre, post) => some (c :: pre, post)
      | none => none

/-- Model of the hostname produced by the JS URL constructor, restricted to
the absolute http(s)-style shape the repository feeds it
(scheme "://" [userinfo "@"] host [":" port] [/path...]): the hostname is the
authority with userinfo and port removed, lower-cased.  A string without
"://", or with an empty scheme or host, models a URL constructor throw
(none). -/
def urlHostname (u : List Char) : Option (List Char) :=
  match splitAtSub "://".data u with
  | none => none
  | some (scheme, rest) =>
    if scheme = [] then none
    else
      let authority := rest.takeWhile (fun c => !(c == '/' || c == '?' || c == '#'))
      let hostPort :=
        if '@' ∈ authority then (authority.reverse.takeWhile (fun c => !(c == '@'))).reverse
        else authority
      let host := hostPort.takeWhile (fun c => !(c == ':'))
      if host = [] then none else some (toLowerL host)

/-- Structured cookie produced by parseCookie (src/cookieRewriter.js lines
37-48).  domain, path, expires and sameSite are null-initialised string
fields (none models null); maxAge holds a JS number where the inner none
models NaN.  The service-worker copy of the parser (src/pages/sw.js) is
identical except that it omits the raw field, which no operation reads. -/
structure Cookie where
  name : List Char
  value : List Char
  domain : Option (List Char) := none
  path : Option (List Char) := none
  expires : Option (List Char) := none
  maxAge : Option (Option Int) := none
  secure : Bool := false
  httpOnly : Bool := false
  sameSite : Option (List Char) := none
  raw : List Char := []
deriving DecidableEq, Repr

/-- Attribute-segment handling of parseCookie (the body of the for-loop over
the segments after the first, src/cookieRewriter.js lines 50-68). -/
def applyAttr (cookie : Cookie) (attr : List Char) : Cookie :=
  let attrLower := toLowerL attr
  if attrLower = "secure".data then { cookie with secure := true }
  else if attrLower = "httponly".data then { cookie with httpOnly := true }
  else if jsStartsWith "domain=".data attrLower then
    { cookie with domain := some (jsTrim (attr.drop 7)) }
  else if jsStartsWith "path=".data attrLower then
    { cookie with path := some (jsTrim (attr.drop 5)) }
  else if jsStartsWith "expires=".data attrLower then
    { cookie with expires := some (jsTrim (attr.drop 8)) }
  else if jsStartsWith "max-age=".data attrLower then
    { cookie with maxAge := some (jsParseInt (jsTrim (attr.drop 8))) }
  else if jsStartsWith "samesite=".data attrLower then
    { cookie with sameSite := some (toLowerL (jsTrim (attr.drop 9))) }
  else cookie

/-- parseCookie (src/cookieRewriter.js lines 17-71): split on ';', trim each
segment; the first segment must be non-empty and contain '='; its first '='
splits name (trimmed again) from value; remaining segments set the recognised
attributes.  A non-string argument, modelled away by the String input type,
also returns none in the source. -/
def parseCookie (cookieString : List Char) : Option Cookie :=
  if cookieString = [] then none
  else
    let parts := (splitOnChar ';' cookieString).map jsTrim
    let nameValue := parts.headD []
    let attributes := parts.tail
    if nameValue = [] then none
    else
      (firstIdxOf '=' nameValue).map (fun eqIndex =>
        attributes.foldl applyAttr
          { name := jsTrim (nameValue.take eqIndex)
            value := nameValue.drop (eqIndex + 1)
            raw := cookieString })

/-- Append a labelled string attribute when it is truthy (present and
non-empty), as the if-guards of serializeCookie do. -/
def optAttr (label : List Char) : Option (List Char) → List Char
  | none => []
  | some v => if v = [] then [] else label ++ v

/-- serializeCookie (src/cookieRewriter.js lines 78-114): name=value followed
by the set attributes in the fixed order Domain, Path, Expires, Max-Age,
SameSite, Secure, HttpOnly; the empty string when the name is empty. -/
def serializeCookie (cookie : Cookie) : List Char :=
  if cookie.name = [] then []
  else
    cookie.name ++ '=' :: cookie.value ++
    optAttr "; Domain=".data cookie.domain ++
    optAttr "; Path=".data cookie.path ++
    optAttr "; Expires=".data cookie.expires ++
    (match cookie.maxAge with
     | none => []
     | some v => "; Max-Age=".data ++ jsNumToChars v) ++
    optAttr "; SameSite=".data cookie.sameSite ++
    (if cookie.secure then "; Secure".data else []) ++
    (if cookie.httpOnly then "; HttpOnly".data else [])

/-- Options object of the backend rewriteCookie; none models an absent
(undefined) property. -/
structure RewriteOptions where
  proxyOrigin : Option (List Char) := none
  targetOrigin : Option (List Char) := none
  isSecureContext : Bool := false
deriving DecidableEq, Repr

/-- Leading-dot strip, the regex replace(/^\./, "") of rewriteCookie. -/
def stripLeadingDot : List Char → List Char
  | '.' :: rest => rest
  | l => l

/-- Proxy hostname derivation of rewriteCookie (src/cookieRewriter.js lines
134-142): the URL hostname of a truthy proxyOrigin, falling back to the raw
proxyOrigin string when URL parsing throws; empty when absent. -/
def proxyHostnameOf (options : RewriteOptions) : List Char :=
  match options.proxyOrigin with
  | none => []
  | some po =>
    if po = [] then []
    else match urlHostname po with
      | some h => h
      | none => po

/-- Domain step of rewriteCookie (src/cookieRewriter.js lines 144-175): a
truthy domain, stripped of one leading dot, that equals the target origin's
host or is a parent domain of it is replaced by the dot-prefixed proxy
hostname — dropped instead for an empty, localhost or 127.0.0.1 proxy
hostname; a truthy domain with a missing or unparseable target origin, or one
that does not match, is dropped. -/
def rewriteDomain (options : RewriteOptions) (proxyHostname : List Char)
    (cookie : Cookie) : Cookie :=
  match cookie.domain with
  | none => cookie
  | some d =>
    if d = [] then cookie
    else
      let cookieDomain := stripLeadingDot d
      match options.targetOrigin with
      | none => { cookie with domain := none }
      | some t =>
        if t = [] then { cookie with domain := none }
        else match urlHostname t with
          | none => { cookie with domain := none }
          | some targetHost =>
            if targetHost = cookieDomain ∨ jsEndsWith ('.' :: cookieDomain) targetHost then
              if proxyHostname ≠ [] ∧ proxyHostname ≠ "localhost".data ∧
                  proxyHostname ≠ "127.0.0.1".data then
                { cookie with domain := some ('.' :: proxyHostname) }
              else { cookie with domain := none }
            else { cookie with domain := none }

/-- Secure step shared by both rewriters (src/cookieRewriter.js lines
177-186, src/pages/sw.js lines 134-143): outside a secure context a set
Secure flag is cleared, and SameSite=None is then downgraded to lax. -/
def rewriteSecure (isSecureContext : Bool) (cookie : Cookie) : Cookie :=
  if ¬isSecureContext ∧ cookie.secure then
    let c := { cookie with secure := false }
    if c.sameSite = some "none".data then { c with sameSite := some "lax".data } else c
  else cookie

/-- SameSite step shared by both rewriters (src/cookieRewriter.js lines
188-192, src/pages/sw.js lines 145-149): SameSite=None without Secure outside
a secure context is downgraded to lax. -/
def rewriteSameSite (isSecureContext : Bool) (cookie : Cookie) : Cookie :=
  if cookie.sameSite = some "none".data ∧ cookie.secure = false ∧
      isSecureContext = false then
    { cookie with sameSite := some "lax".data }
  else cookie

/-- Path step shared by both rewriters (src/cookieRewriter.js lines 194-197,
src/pages/sw.js lines 151-154): a falsy path defaults to "/". -/
def defaultPath (cookie : Cookie) : Cookie :=
  match cookie.path with
  | none => { cookie with path := some "/".data }
  | some p => if p = [] then { cookie with path := some "/".data } else cookie

/-- rewriteCookie (src/cookieRewriter.js lines 125-200).  Parsing failure
returns the input unchanged; otherwise the domain, secure, samesite and path
steps run in order and the cookie is serialized back. -/
def rewriteCookie (cookieString : List Char) (options : RewriteOptions) : List Char :=
  match parseCookie cookieString with
  | none => cookieString
  | some cookie =>
    serializeCookie (defaultPath (rewriteSameSite options.isSecureContext
      (rewriteSecure options.isSecureContext
        (rewriteDomain options (proxyHostnameOf options) cookie))))

/-- Options object of the service-worker CookieRewriter.rewriteCookie. -/
structure SwRewriteOptions where
  proxyHostname : Option (List Char) := none
  isSecureContext : Bool := false
deriving DecidableEq, Repr

/-- Domain step of the service-worker rewriter (src/pages/sw.js lines
122-132): any truthy domain becomes the dot-prefixed proxy hostname (kept
as-is when it already starts with a dot), or is dropped for a localhost,
127.0.0.1, empty or absent proxy hostname. -/
def swRewriteDomain (options : SwRewriteOptions) (cookie : Cookie) : Cookie :=
  match cookie.domain with
  | none => cookie
  | some d =>
    if d = [] then cookie
    else
      match options.proxyHostname with
      | none => { cookie with domain := none }
      | some ph =>
        if ph ≠ [] ∧ ph ≠ "localhost".data ∧ ph ≠ "127.0.0.1".data then
          let dotted := if jsStartsWith ".".data ph then ph else '.' :: ph
          { cookie with domain := some dotted }
        else { cookie with domain := none }

/-- CookieRewriter.rewriteCookie (src/pages/sw.js lines 113-157): like the
backend rewriteCookie but with the simple domain strategy. -/
def swRewriteCookie (cookieString : List Char) (options : SwRewriteOptions) : List Char :=
  match parseCookie cookieString with
  | none => cookieString
  | some cookie =>
    serializeCookie (defaultPath (rewriteSameSite options.isSecureContext
      (rewriteSecure options.isSecureContext (swRewriteDomain options cookie))))

/-- rewriteCookies (src/cookieRewriter.js lines 208-214): map rewriteCookie
and drop falsy (empty) results via filter(Boolean). -/
def rewriteCookies (cookies : List (List Char)) (options : RewriteOptions) : List (List Char) :=
  (cookies.map (fun c => rewriteCookie c options)).filter (fun s => !s.isEmpty)

/-- JS argument that may be undefined or null, used to model how default
parameter values interact with explicit null arguments. -/
inductive JSArg (α : Type) where
  | undef : JSArg α
  | null : JSArg α
  | value : α → JSArg α
deriving DecidableEq

/-- Outcome of a JS call that can throw. -/
inductive JSOutcome (α : Type) where
  | ok : α → JSOutcome α
  | thrown : JSOutcome α
deriving DecidableEq

/-- Call semantics of rewriteCookie's options parameter
(src/cookieRewriter.js lines 125-132): the default value {} applies only when
the argument is undefined.  The body parses the cookie string first and
returns an unparseable input unchanged (lines 126-130); only after that does
a null options object reach the destructuring
const { proxyOrigin, targetOrigin, isSecureContext = false } = options
on line 132, which throws a TypeError. -/
def rewriteCookieJS (cookieString : List Char) :
    JSArg RewriteOptions → JSOutcome (List Char)
  | JSArg.undef => JSOutcome.ok (rewriteCookie cookieString {})
  | JSArg.null =>
    match parseCookie cookieString with
    | none => JSOutcome.ok cookieString
    | some _ => JSOutcome.thrown
  | JSArg.value o => JSOutcome.ok (rewriteCookie cookieString o)

/-- A value of a raw Node headers object entry: a single string or an array
of strings; src/cookieRewriter.js lines 240-247 and 273-277 handle exactly
these two shapes and ignore any other. -/
inductive HeaderValue where
  | str : List Char → HeaderValue
  | arr : List (List Char) → HeaderValue
deriving DecidableEq, Repr

/-- The set-cookie collection loop shared by extractSetCookieHeaders (lines
238-249) and rewriteHeadersCookies (lines 269-281): values of the entries
whose name lower-cases to set-cookie, in order, arrays spread element-wise.
A raw headers object is modeled as its ordered entry list. -/
def collectSetCookies (headers : List (List Char × HeaderValue)) : List (List Char) :=
  headers.foldl
    (fun acc nv =>
      if toLowerL nv.1 = "set-cookie".data then
        match nv.2 with
        | HeaderValue.arr vs => acc ++ vs
        | HeaderValue.str v => acc ++ [v]
      else acc) []

/-- extractSetCookieHeaders (src/cookieRewriter.js lines 221-253) on a raw
headers object: a null or undefined argument matches neither the
Headers-instance test nor the object test and yields the empty array.  (The
Headers-instance branch, lines 224-235, delegates to the platform Headers
iterator and is outside this model.) -/
def extractSetCookieHeaders : JSArg (List (List Char × HeaderValue)) → List (List Char)
  | JSArg.undef => []
  | JSArg.null => []
  | JSArg.value headers => collectSetCookies headers

/-- Array.prototype.map with a callback that may throw: the first throw
aborts the whole call. -/
def mapThrow (f : List Char → JSOutcome (List Char)) :
    List (List Char) → JSOutcome (List (List Char))
  | [] => JSOutcome.ok []
  | c :: rest =>
    match f c with
    | JSOutcome.thrown => JSOutcome.thrown
    | JSOutcome.ok r =>
      match mapThrow f rest with
      | JSOutcome.thrown => JSOutcome.thrown
      | JSOutcome.ok rs => JSOutcome.ok (r :: rs)

/-- Call semantics of rewriteCookies (src/cookieRewriter.js lines 208-214):
a non-array cookies argument (null or undefined) returns the empty array
before the options argument is ever used; otherwise every element goes
through rewriteCookie with that options argument and falsy results are
filtered out. -/
def rewriteCookiesJS (cookies : JSArg (List (List Char)))
    (options : JSArg RewriteOptions) : JSOutcome (List (List Char)) :=
  match cookies with
  | JSArg.undef => JSOutcome.ok []
  | JSArg.null => JSOutcome.ok []
  | JSArg.value cs =>
    match mapThrow (fun c => rewriteCookieJS c options) cs with
    | JSOutcome.thrown => JSOutcome.thrown
    | JSOutcome.ok rs => JSOutcome.ok (rs.filter (fun s => !s.isEmpty))

/-- rewriteHeadersCookies (src/cookieRewriter.js lines 261-292): a null or
undefined headers argument fails the object test and is returned unchanged;
otherwise non-set-cookie entries are kept in order, the collected set-cookie
values go through rewriteCookies with the given options argument, and a
set-cookie entry is appended only when some rewritten cookie is non-empty. -/
def rewriteHeadersCookiesJS (headers : JSArg (List (List Char × HeaderValue)))
    (options : JSArg RewriteOptions) :
    JSOutcome (JSArg (List (List Char × HeaderValue))) :=
  match headers with
  | JSArg.undef => JSOutcome.ok JSArg.undef
  | JSArg.null => JSOutcome.ok JSArg.null
  | JSArg.value hs =>
    let newHeaders := hs.filter (fun nv => !(toLowerL nv.1 == "set-cookie".data))
    let setCookies := collectSetCookies hs
    if 0 < setCookies.length then
      match rewriteCookiesJS (JSArg.value setCookies) options with
      | JSOutcome.thrown => JSOutcome.thrown
      | JSOutcome.ok rewritten =>
        JSOutcome.ok (JSArg.value
          (if 0 < rewritten.length then
            newHeaders ++ [("set-cookie".data, HeaderValue.arr rewritten)]
          else newHeaders))
    else JSOutcome.ok (JSArg.value newHeaders)

/-- Verification cookie name patterns (src/pages/client.js lines 2478-2494). -/
def VERIFICATION_COOKIES : List (List Char) :=
  ["cf_clearance".data, "__cf_bm".data, "_cf_bm".data, "cf_chl_prog".data,
   "cf_chl_rc_ni".data, "cf_chl_seq_".data, "__cfruid".data,
   "__cfwaitingroom".data, "_cfuvid".data, "hc_accessibility".data,
   "_GRECAPTCHA".data, "cf_turnstile_".data]

/-- isVerificationCookie (src/pages/client.js lines 2497-2502): the
lower-cased, trimmed name matches a listed pattern exactly or as a prefix. -/
def isVerificationCookie (cookieName : List Char) : Bool :=
  let name := jsTrim (toLowerL cookieName)
  VERIFICATION_COOKIES.any (fun v => name == toLowerL v || jsStartsWith (toLowerL v) name)

/-- Leading match of the regex /;\s*path=[^;]+/gi at the head of l: a ';',
greedy whitespace, "path=" case-insensitively, then at least one non-';'
character (consumed greedily).  Returns the remainder after the match. -/
def matchPathAt (l : List Char) : Option (List Char) :=
  match l with
  | [] => none
  | c :: rest =>
    if c = ';' then
      let r2 := rest.dropWhile isJsSpace
      if jsStartsWith "path=".data (toLowerL r2) then
        let r3 := r2.drop 5
        let body := r3.takeWhile (fun x => !(x == ';'))
        if body = [] then none else some (r3.dropWhile (fun x => !(x == ';')))
      else none
    else none

theorem matchPathAt_length_lt {l r : List Char} (h : matchPathAt l = some r) :
    r.length < l.length := by
  match l with
  | [] => simp [matchPathAt] at h
  | c :: rest =>
    simp only [matchPathAt] at h
    split at h
    · split at h
      · split at h
        · simp at h
        · injection h with h2
          subst h2
          have h1 : (((rest.dropWhile isJsSpace).drop 5).dropWhile
                (fun x => !(x == ';'))).length ≤
              ((rest.dropWhile isJsSpace).drop 5).length :=
            (List.dropWhile_sublist _).length_le
          have h2 : ((rest.dropWhile isJsSpace).drop 5).length ≤
              (rest.dropWhile isJsSpace).length := by
            simp [List.length_drop]
          have h3 : (rest.dropWhile isJsSpace).length ≤ rest.length :=
            (List.dropWhile_sublist _).length_le
          simp only [List.length_cons]
          omega
      · simp at h
    · simp at h

/-- Global replace of /;\s*path=[^;]+/gi by the empty string: scan left to
right, removing each leftmost match and continuing after it.  The fuel
argument bounds the number of scan steps; since each step strictly shortens
the list (matchPathAt_length_lt), fuel equal to the input length always
suffices. -/
def stripPathAttrsFuel : Nat → List Char → List Char
  | _, [] => []
  | 0, l => l
  | fuel + 1, c :: cs =>
    match matchPathAt (c :: cs) with
    | some rest => stripPathAttrsFuel fuel rest
    | none => c :: stripPathAttrsFuel fuel cs

def stripPathAttrs (l : List Char) : List Char :=
  stripPathAttrsFuel l.length l

/-- Test of the regex /;\s*samesite=/i: some ';' is followed by optional
whitespace and "samesite=" case-insensitively. -/
def testSameSiteAttr : List Char → Bool
  | [] => false
  | c :: rest =>
    (c == ';' && jsStartsWith "samesite=".data (toLowerL (rest.dropWhile isJsSpace))) ||
    testSameSiteAttr rest

/-- Test of the regex /;\s*secure/i. -/
def testSecureAttr : List Char → Bool
  | [] => false
  | c :: rest =>
    (c == ';' && jsStartsWith "secure".data (toLowerL (rest.dropWhile isJsSpace))) ||
    testSecureAttr rest

/-- Cookie name extracted by preserveVerificationCookie
(src/pages/client.js lines 2510-2512): first '='-segment of the first
';'-segment, trimmed. -/
def preserveCookieName (cookieString : List Char) : List Char :=
  jsTrim ((splitOnChar '=' ((splitOnChar ';' cookieString).headD [])).headD [])

/-- preserveVerificationCookie (src/pages/client.js lines 2506-2538).  The
settings read from localStorage and the page scheme appear as the
preserveCookies and isHttps parameters.  Unless preservation applies (all
cookies when preserveCookies is set, otherwise only recognised verification
cookies) the string is returned unchanged; otherwise any path attributes are
stripped, "; path=/" is appended, "; SameSite=None" is appended when no
SameSite attribute is present, and "; Secure" is appended on HTTPS when no
Secure token is present. -/
def preserveVerificationCookie (preserveCookies : Bool) (isHttps : Bool)
    (cookieString : List Char) : List Char :=
  let cookieName := preserveCookieName cookieString
  if !preserveCookies && !isVerificationCookie cookieName then cookieString
  else
    let m := stripPathAttrs cookieString
    let m := m ++ "; path=/".data
    let m := if testSameSiteAttr m then m else m ++ "; SameSite=None".data
    let m := if isHttps && !testSecureAttr m then m ++ "; Secure".data else m
    m

/-- Ad-serving domains (src/pages/client.js lines 2784-2816). -/
def AD_DOMAINS : List (List Char) :=
  ["doubleclick.net".data, "googlesyndication.com".data,
   "googleadservices.com".data, "google-analytics.com".data,
   "googletagmanager.com".data, "facebook.net".data, "fbcdn.net".data,
   "adnxs.com".data, "adsrvr.org".data, "advertising.com".data,
   "adroll.com".data, "taboola.com".data, "outbrain.com".data,
   "criteo.com".data, "criteo.net".data, "pubmatic.com".data,
   "rubiconproject.com".data, "openx.net".data, "casalemedia.com".data,
   "scorecardresearch.com".data, "quantserve.com".data, "bluekai.com".data,
   "exelator.com".data, "turn.com".data, "mathtag.com".data,
   "serving-sys.com".data, "2mdn.net".data, "moatads.com".data,
   "adzerk.net".data, "adtechus.com".data, "amazon-adsystem.com".data]

/-- isAdUrl (src/pages/client.js lines 2819-2829): the URL's lower-cased
hostname equals a listed domain or ends with "." followed by one; a URL the
URL constructor rejects is not an ad URL. -/
def isAdUrl (url : List Char) : Bool :=
  match urlHostname url with
  | none => false
  | some h =>
    let hostname := toLowerL h
    AD_DOMAINS.any (fun d => hostname == d || jsEndsWith ('.' :: d) hostname)

/-- Disposition of a protocol-upgrade request in the server's upgrade
handler (src/server.js lines 35-41). -/
inductive UpgradeAction where
  | route : UpgradeAction
  | close : UpgradeAction
deriving DecidableEq, Repr

/-- Upgrade handler (src/server.js lines 35-41): requests whose URL ends
with "/wisp/" go to wisp.routeRequest, every other upgrade socket is ended. -/
def upgradeAction (url : List Char) : UpgradeAction :=
  if jsEndsWith "/wisp/".data url then UpgradeAction.route else UpgradeAction.close

/-- Transport module path constant of the client orchestrator
(src/pages/client.js line 5). -/
def TRANSPORT_PATH : List Char := "/epoxy/index.mjs".data

/-- Module-level mutable state used by ensureTransportConfigured
(src/pages/client.js lines 1290-1293) together with the connection state and
instrumentation for the verification: setCount counts connection.setTransport
calls started, setInFlight tracks whether one is currently executing, and
overlap records whether a setTransport was ever started while another was in
flight. -/
structure TransportGlobals where
  transportConfigured : Bool
  lastWispUrl : Option (List Char)
  promiseActive : Bool
  currentTransport : Option (List Char)
  setCount : Nat
  setInFlight : Bool
  overlap : Bool
deriving DecidableEq, Repr

/-- Control point of one ensureTransportConfigured call between the await
points of its body (src/pages/client.js lines 1296-1324): about to run the
synchronous prologue; suspended awaiting an existing in-flight promise;
suspended in the body awaiting connection.getTransport; suspended in the body
awaiting connection.setTransport; returned; or completed with a rejection. -/
inductive CallPhase where
  | start : CallPhase
  | waitingPromise : CallPhase
  | inBodyGet : CallPhase
  | inBodySet : CallPhase
  | done : CallPhase
  | failed : CallPhase
deriving DecidableEq, Repr

/-- One event-loop turn of a single ensureTransportConfigured call.  The
synchronous prologue (fast path, await of an existing promise, or starting
the configuration body up to its first await, which also publishes the
promise) is atomic, as is each resumption after an await; outcomes gives the
result of the k-th setTransport call (true = fulfilled). -/
def stepCall (url : List Char) (outcomes : Nat → Bool) (g : TransportGlobals)
    (pc : CallPhase) : TransportGlobals × CallPhase :=
  match pc with
  | CallPhase.start =>
    if g.transportConfigured ∧ g.lastWispUrl = some url then (g, CallPhase.done)
    else if g.promiseActive then (g, CallPhase.waitingPromise)
    else ({ g with promiseActive := true }, CallPhase.inBodyGet)
  | CallPhase.waitingPromise =>
    if g.promiseActive then (g, CallPhase.waitingPromise) else (g, CallPhase.done)
  | CallPhase.inBodyGet =>
    if g.currentTransport ≠ some TRANSPORT_PATH ∨ g.lastWispUrl ≠ some url then
      ({ g with setCount := g.setCount + 1
                overlap := g.overlap || g.setInFlight
                setInFlight := true }, CallPhase.inBodySet)
    else
      ({ g with transportConfigured := true
                lastWispUrl := some url
                promiseActive := false }, CallPhase.done)
  | CallPhase.inBodySet =>
    if outcomes (g.setCount - 1) then
      ({ g with setInFlight := false
                currentTransport := some TRANSPORT_PATH
                transportConfigured := true
                lastWispUrl := some url
                promiseActive := false }, CallPhase.done)
    else
      ({ g with setInFlight := false, promiseActive := false }, CallPhase.failed)
  | CallPhase.done => (g, CallPhase.done)
  | CallPhase.failed => (g, CallPhase.failed)

/-- Two ensureTransportConfigured calls sharing the module-level state. -/
structure TransportSys where
  g : TransportGlobals
  a : CallPhase
  b : CallPhase
deriving DecidableEq, Repr

/-- Advance call a (choice true) or call b (choice false) by one turn. -/
def stepSys (url : List Char) (outcomes : Nat → Bool) (choice : Bool)
    (s : TransportSys) : TransportSys :=
  if choice then
    { s with g := (stepCall url outcomes s.g s.a).1, a := (stepCall url outcomes s.g s.a).2 }
  else
    { s with g := (stepCall url outcomes s.g s.b).1, b := (stepCall url outcomes s.g s.b).2 }

/-- Run the two calls under an arbitrary interleaving schedule. -/
def runSched (url : List Char) (outcomes : Nat → Bool) :
    List Bool → TransportSys → TransportSys
  | [], s => s
  | c :: rest, s => runSched url outcomes rest (stepSys url outcomes c s)

/-- Initial state: transport not configured, no recorded tunnel URL, no
in-flight promise, an arbitrary connection transport, both calls about to
run. -/
def transportInit (ct : Option (List Char)) : TransportSys :=
  { g := { transportConfigured := false, lastWispUrl := none, promiseActive := false
           currentTransport := ct, setCount := 0, setInFlight := false, overlap := false }
    a := CallPhase.start
    b := CallPhase.start }

/-- A call is inside the configuration body (between taking and releasing the
in-flight promise). -/
def inBody (pc : CallPhase) : Bool :=
  match pc with
  | CallPhase.inBodyGet => true
  | CallPhase.inBodySet => true
  | _ => false

/-- JS truthiness of a nullable string field: null and the empty string are
falsy.  serializeCookie emits an attribute exactly when this is some value. -/
def truthyOpt : Option (List Char) → Option (List Char)
  | none => none
  | some v => if v = [] then none else some v

/-- A string has no leading JS whitespace. -/
def ltrimmed (l : List Char) : Prop := l.dropWhile isJsSpace = l

/-- A string has no trailing JS whitespace. -/
def rtrimmed (l : List Char) : Prop := ltrimmed l.reverse

/-- Invariants of every cookie object parseCookie produces: the name is
trimmed and free of ';' and '='; the value is free of ';' and the serialized
name=value segment is trim-invariant; every present string attribute is
trimmed and free of ';'; a present sameSite value is moreover lower-case. -/
structure CookieWF (c : Cookie) : Prop where
  nameTrim : jsTrim c.name = c.name
  nameNoSemi : ';' ∉ c.name
  nameNoEq : '=' ∉ c.name
  valueNoSemi : ';' ∉ c.value
  nvTrim : jsTrim (c.name ++ '=' :: c.value) = c.name ++ '=' :: c.value
  domainWF : ∀ d, c.domain = some d → jsTrim d = d ∧ ';' ∉ d
  pathWF : ∀ p, c.path = some p → jsTrim p = p ∧ ';' ∉ p
  expiresWF : ∀ e, c.expires = some e → jsTrim e = e ∧ ';' ∉ e
  sameSiteWF : ∀ v, c.sameSite = some v → jsTrim v = v ∧ ';' ∉ v ∧ toLowerL v = v

/-- The attribute items of serializeCookie, without their "; " separators, in
emission order. -/
def attrItems (c : Cookie) : List (List Char) :=
  (match truthyOpt c.domain with
   | some d => ["Domain=".data ++ d]
   | none => []) ++
  (match truthyOpt c.path with
   | some p => ["Path=".data ++ p]
   | none => []) ++
  (match truthyOpt c.expires with
   | some e => ["Expires=".data ++ e]
   | none => []) ++
  (match c.maxAge with
   | some v => ["Max-Age=".data ++ jsNumToChars v]
   | none => []) ++
  (match truthyOpt c.sameSite with
   | some v => ["SameSite=".data ++ v]
   | none => []) ++
  (if c.secure then ["Secure".data] else []) ++
  (if c.httpOnly then ["HttpOnly".data] else [])

section CharLemmas

theorem charToNat_ofNat {n : Nat} (h : n < 55296) : (Char.ofNat n).toNat = n := by
  rw [Char.ofNat, dif_pos (Or.inl h)]
  rfl

theorem toLowerJS_toNat (c : Char) :
    (toLowerJS c).toNat = if 65 ≤ c.toNat ∧ c.toNat ≤ 90 then c.toNat + 32 else c.toNat := by
  unfold toLowerJS
  split
  · next h => exact charToNat_ofNat (by omega)
  · rfl

theorem toLowerJS_eq_self {c : Char} (h : ¬(65 ≤ c.toNat ∧ c.toNat ≤ 90)) :
    toLowerJS c = c := by
  unfold toLowerJS
  rw [if_neg h]

theorem toLowerJS_idem (c : Char) : toLowerJS (toLowerJS c) = toLowerJS c := by
  apply toLowerJS_eq_self
  rw [toLowerJS_toNat]
  split <;> omega

theorem isJsSpace_toLowerJS (c : Char) : isJsSpace (toLowerJS c) = isJsSpace c := by
  have h := toLowerJS_toNat c
  unfold isJsSpace
  rw [h]
  split <;> [skip; rfl]
  next hc =>
  have h1 : ¬(c.toNat = 9 || c.toNat = 10 || c.toNat = 11 || c.toNat = 12 || c.toNat = 13 ||
      c.toNat = 32 || c.toNat = 160 || c.toNat = 0x1680 ||
      (0x2000 ≤ c.toNat && c.toNat ≤ 0x200a) ||
      c.toNat = 0x2028 || c.toNat = 0x2029 || c.toNat = 0x202f ||
      c.toNat = 0x205f || c.toNat = 0x3000 || c.toNat = 0xfeff) = true := by
    simp only [Bool.or_eq_true, decide_eq_true_eq, Bool.and_eq_true]
    omega
  have h2 : ¬(c.toNat + 32 = 9 || c.toNat + 32 = 10 || c.toNat + 32 = 11 ||
      c.toNat + 32 = 12 || c.toNat + 32 = 13 ||
      c.toNat + 32 = 32 || c.toNat + 32 = 160 || c.toNat + 32 = 0x1680 ||
      (0x2000 ≤ c.toNat + 32 && c.toNat + 32 ≤ 0x200a) ||
      c.toNat + 32 = 0x2028 || c.toNat + 32 = 0x2029 || c.toNat + 32 = 0x202f ||
      c.toNat + 32 = 0x205f || c.toNat + 32 = 0x3000 || c.toNat + 32 = 0xfeff) = true := by
    simp only [Bool.or_eq_true, decide_eq_true_eq, Bool.and_eq_true]
    omega
  rw [Bool.eq_iff_iff]
  constructor
  · intro hx; exact absurd hx h2
  · intro hx; exact absurd hx h1

theorem char_eq_iff_toNat {a b : Char} : a = b ↔ a.toNat = b.toNat := by
  constructor
  · intro h; rw [h]
  · intro h
    have ha := Char.ofNat_toNat a
    rw [← ha, h, Char.ofNat_toNat]

theorem toLowerJS_eq_semi {c : Char} (h : toLowerJS c = ';') : c = ';' := by
  have ht := toLowerJS_toNat c
  rw [h] at ht
  have hsemi : (';' : Char).toNat = 59 := rfl
  rw [hsemi] at ht
  split at ht
  · omega
  · exact char_eq_iff_toNat.mpr (by omega)

theorem not_mem_toLowerL {l : List Char} (h : ';' ∉ l) : ';' ∉ toLowerL l := by
  intro hmem
  obtain ⟨a, ha, hla⟩ := List.mem_map.mp hmem
  exact h (toLowerJS_eq_semi hla ▸ ha)

theorem toLowerL_idem (l : List Char) : toLowerL (toLowerL l) = toLowerL l := by
  unfold toLowerL
  rw [List.map_map]
  exact List.map_congr_left (fun c _ => toLowerJS_idem c)

end CharLemmas

section TrimLemmas

theorem ltrimmed_nil : ltrimmed [] := rfl

theorem ltrimmed_cons {c : Char} {l : List Char} (h : isJsSpace c = false) :
    ltrimmed (c :: l) := by
  unfold ltrimmed
  rw [List.dropWhile_cons_of_neg (by simp [h])]

theorem ltrimmed_cons_head {c : Char} {l : List Char} (h : ltrimmed (c :: l)) :
    isJsSpace c = false := by
  by_contra hc
  have hc' : isJsSpace c = true := by
    cases hx : isJsSpace c
    · exact absurd hx hc
    · rfl
  unfold ltrimmed at h
  rw [List.dropWhile_cons_of_pos hc'] at h
  have := congrArg List.length h
  have hle : (l.dropWhile isJsSpace).length ≤ l.length :=
    (List.dropWhile_sublist _).length_le
  simp at this
  omega

theorem ltrimmed_append {l m : List Char} (h : ltrimmed l) (hne : l ≠ []) :
    ltrimmed (l ++ m) := by
  cases l with
  | nil => exact absurd rfl hne
  | cons c t => exact ltrimmed_cons (ltrimmed_cons_head h)

theorem ltrimmed_dropWhile (l : List Char) : ltrimmed (l.dropWhile isJsSpace) := by
  cases h : l.dropWhile isJsSpace with
  | nil => exact ltrimmed_nil
  | cons c t =>
    apply ltrimmed_cons
    have := List.head?_dropWhile_not isJsSpace l
    rw [h] at this
    simp at this
    simp [this]

theorem ltrimmed_of_isPrefix {w l : List Char} (h : w <+: l) (hl : ltrimmed l) :
    ltrimmed w := by
  cases w with
  | nil => exact ltrimmed_nil
  | cons c t =>
    obtain ⟨r, hr⟩ := h
    rw [← hr] at hl
    exact ltrimmed_cons (ltrimmed_cons_head hl)

theorem jsTrim_eq_self {l : List Char} (h1 : ltrimmed l) (h2 : rtrimmed l) :
    jsTrim l = l := by
  unfold jsTrim
  unfold ltrimmed at h1
  unfold rtrimmed ltrimmed at h2
  rw [h1, h2, List.reverse_reverse]

theorem rtrimmed_jsTrim (l : List Char) : rtrimmed (jsTrim l) := by
  unfold rtrimmed jsTrim
  rw [List.reverse_reverse]
  exact ltrimmed_dropWhile _

theorem ltrimmed_jsTrim (l : List Char) : ltrimmed (jsTrim l) := by
  unfold jsTrim
  have hsuf : (l.dropWhile isJsSpace).reverse.dropWhile isJsSpace <:+
      (l.dropWhile isJsSpace).reverse := List.dropWhile_suffix _
  have hpre : ((l.dropWhile isJsSpace).reverse.dropWhile isJsSpace).reverse <+:
      l.dropWhile isJsSpace := by
    have h := List.reverse_prefix.mpr hsuf
    rw [List.reverse_reverse] at h
    exact h
  exact ltrimmed_of_isPrefix hpre (ltrimmed_dropWhile l)

theorem jsTrim_idem (l : List Char) : jsTrim (jsTrim l) = jsTrim l :=
  jsTrim_eq_self (ltrimmed_jsTrim l) (rtrimmed_jsTrim l)

theorem jsTrim_subset (l : List Char) : jsTrim l ⊆ l := by
  intro a ha
  unfold jsTrim at ha
  rw [List.mem_reverse] at ha
  have h1 := List.dropWhile_subset isJsSpace ha
  rw [List.mem_reverse] at h1
  exact List.dropWhile_subset isJsSpace h1

theorem jsTrim_cons_space {m : List Char} (h1 : ltrimmed m) (h2 : rtrimmed m) :
    jsTrim (' ' :: m) = m := by
  unfold jsTrim
  rw [List.dropWhile_cons_of_pos (by decide : isJsSpace ' ' = true)]
  unfold ltrimmed at h1
  unfold rtrimmed ltrimmed at h2
  rw [h1, h2, List.reverse_reverse]

end TrimLemmas

section SplitLemmas

theorem splitOnChar_ne_nil (sep : Char) (l : List Char) : splitOnChar sep l ≠ [] := by
  induction l with
  | nil => simp [splitOnChar]
  | cons c cs ih =>
    unfold splitOnChar
    split
    · simp
    · cases h : splitOnChar sep cs with
      | nil => simp
      | cons p ps => simp

theorem not_mem_of_mem_splitOnChar {sep : Char} {l part : List Char}
    (h : part ∈ splitOnChar sep l) : sep ∉ part := by
  induction l generalizing part with
  | nil =>
    simp [splitOnChar] at h
    simp [h]
  | cons c cs ih =>
    unfold splitOnChar at h
    split at h
    · rcases List.mem_cons.mp h with h1 | h1
      · simp [h1]
      · exact ih h1
    · next hc =>
      cases hs : splitOnChar sep cs with
      | nil => exact absurd hs (splitOnChar_ne_nil sep cs)
      | cons p ps =>
        rw [hs] at h
        rcases List.mem_cons.mp h with h1 | h1
        · subst h1
          intro hmem
          rcases List.mem_cons.mp hmem with h2 | h2
          · exact hc h2.symm
          · exact ih (hs ▸ List.mem_cons_self p ps) h2
        · exact ih (hs ▸ List.mem_cons_of_mem p h1)

theorem splitOnChar_of_not_mem {sep : Char} {l : List Char} (h : sep ∉ l) :
    splitOnChar sep l = [l] := by
  induction l with
  | nil => rfl
  | cons c cs ih =>
    unfold splitOnChar
    rw [if_neg (by intro hc; exact h (hc ▸ List.mem_cons_self c cs))]
    rw [ih (fun hm => h (List.mem_cons_of_mem c hm))]

theorem splitOnChar_cons_ne {sep c : Char} (cs : List Char) (h : c ≠ sep) :
    splitOnChar sep (c :: cs) =
      match splitOnChar sep cs with
      | [] => [[c]]
      | p :: ps => (c :: p) :: ps := by
  conv_lhs => rw [splitOnChar]
  rw [if_neg h]

theorem splitOnChar_append {sep : Char} {l t : List Char} (h : sep ∉ l) :
    splitOnChar sep (l ++ sep :: t) = l :: splitOnChar sep t := by
  induction l with
  | nil =>
    simp [splitOnChar]
  | cons c cs ih =>
    have hc : c ≠ sep := fun hc => h (hc ▸ List.mem_cons_self c cs)
    rw [List.cons_append, splitOnChar_cons_ne _ hc,
      ih (fun hm => h (List.mem_cons_of_mem c hm))]

end SplitLemmas

section IdxLemmas

theorem firstIdxOf_spec {c : Char} {l : List Char} {i : Nat}
    (h : firstIdxOf c l = some i) :
    ∃ a b, l = a ++ c :: b ∧ a.length = i ∧ c ∉ a := by
  induction l generalizing i with
  | nil => simp [firstIdxOf] at h
  | cons x xs ih =>
    unfold firstIdxOf at h
    split at h
    · next hx =>
      subst hx
      simp at h
      exact ⟨[], xs, by simp, by simp [h], by simp⟩
    · next hx =>
      rcases hi : firstIdxOf c xs with _ | j
      · rw [hi] at h; simp at h
      · rw [hi] at h
        simp at h
        obtain ⟨a, b, hab, hlen, hmem⟩ := ih hi
        refine ⟨x :: a, b, by simp [hab], by simp [hlen, h], ?_⟩
        intro hm
        rcases List.mem_cons.mp hm with h1 | h1
        · exact hx h1.symm
        · exact hmem h1

theorem firstIdxOf_append {c : Char} {a b : List Char} (h : c ∉ a) :
    firstIdxOf c (a ++ c :: b) = some a.length := by
  induction a with
  | nil => simp [firstIdxOf]
  | cons x xs ih =>
    have hx : x ≠ c := fun hx => h (hx ▸ List.mem_cons_self x xs)
    rw [List.cons_append]
    unfold firstIdxOf
    rw [if_neg hx, ih (fun hm => h (List.mem_cons_of_mem x hm))]
    simp

end IdxLemmas

section StartsWithLemmas

theorem jsStartsWith_append (p r : List Char) : jsStartsWith p (p ++ r) = true := by
  induction p with
  | nil => rfl
  | cons c cs ih => simp [jsStartsWith, ih]

theorem jsStartsWith_iff {p l : List Char} :
    jsStartsWith p l = true ↔ ∃ r, l = p ++ r := by
  constructor
  · intro h
    induction p generalizing l with
    | nil => exact ⟨l, rfl⟩
    | cons c cs ih =>
      cases l with
      | nil => simp [jsStartsWith] at h
      | cons x xs =>
        simp [jsStartsWith] at h
        obtain ⟨r, hr⟩ := ih h.2
        exact ⟨r, by simp [h.1, hr]⟩
  · rintro ⟨r, rfl⟩
    exact jsStartsWith_append p r

theorem jsEndsWith_iff {p l : List Char} :
    jsEndsWith p l = true ↔ ∃ r, l = r ++ p := by
  unfold jsEndsWith
  rw [jsStartsWith_iff]
  constructor
  · rintro ⟨r, hr⟩
    refine ⟨r.reverse, ?_⟩
    have := congrArg List.reverse hr
    simp at this
    simp [this]
  · rintro ⟨r, rfl⟩
    exact ⟨r.reverse, by simp⟩

end StartsWithLemmas

section DigitLemmas

theorem natToChars_acc (n : Nat) (acc : List Char) :
    natToChars n acc = natToChars n [] ++ acc := by
  induction n using Nat.strong_induction_on generalizing acc with
  | _ n ih =>
    by_cases h : n < 10
    · conv_lhs => rw [natToChars]
      conv_rhs => rw [natToChars]
      simp only [dif_pos h]
      simp
    · conv_lhs => rw [natToChars]
      conv_rhs => rw [natToChars]
      simp only [dif_neg h]
      have hlt : n / 10 < n := Nat.div_lt_self (by omega) (by omega)
      rw [ih (n / 10) hlt, ih (n / 10) hlt [digitChar (n % 10)]]
      simp

theorem digitChar_isDigit {k : Nat} (h : k < 10) : isDigitChar (digitChar k) = true := by
  interval_cases k <;> decide

theorem digitVal_digitChar {k : Nat} (h : k < 10) : digitVal (digitChar k) = k := by
  interval_cases k <;> decide

theorem natToChars_mem {n : Nat} {x : Char} (hx : x ∈ natToChars n []) :
    isDigitChar x = true := by
  induction n using Nat.strong_induction_on with
  | _ n ih =>
    rw [natToChars] at hx
    by_cases h : n < 10
    · rw [dif_pos h] at hx
      simp at hx
      rw [hx]
      exact digitChar_isDigit (Nat.mod_lt n (by omega))
    · rw [dif_neg h] at hx
      rw [natToChars_acc] at hx
      rcases List.mem_append.mp hx with h1 | h1
      · exact ih (n / 10) (Nat.div_lt_self (by omega) (by omega)) h1
      · simp at h1
        rw [h1]
        exact digitChar_isDigit (Nat.mod_lt n (by omega))

theorem natToChars_ne_nil (n : Nat) : natToChars n [] ≠ [] := by
  rw [natToChars]
  by_cases h : n < 10
  · rw [dif_pos h]; simp
  · rw [dif_neg h, natToChars_acc]; simp

theorem digitsVal_foldl_init (b : List Char) (i : Nat) :
    List.foldl (fun a c => a * 10 + digitVal c) i b =
    i * 10 ^ b.length + List.foldl (fun a c => a * 10 + digitVal c) 0 b := by
  induction b generalizing i with
  | nil => simp
  | cons c t ih =>
    rw [List.foldl_cons, List.foldl_cons, ih (i * 10 + digitVal c),
      ih (0 * 10 + digitVal c)]
    simp [List.length_cons]
    ring

theorem digitsVal_append (a b : List Char) :
    digitsVal (a ++ b) = digitsVal a * 10 ^ b.length + digitsVal b := by
  unfold digitsVal
  rw [List.foldl_append]
  exact digitsVal_foldl_init b (List.foldl (fun a c => a * 10 + digitVal c) 0 a)

theorem digitsVal_natToChars (n : Nat) : digitsVal (natToChars n []) = n := by
  induction n using Nat.strong_induction_on with
  | _ n ih =>
    rw [natToChars]
    by_cases h : n < 10
    · rw [dif_pos h]
      unfold digitsVal
      simp [digitVal_digitChar (Nat.mod_lt n (by omega) : n % 10 < 10)]
      omega
    · rw [dif_neg h, natToChars_acc, digitsVal_append,
        ih (n / 10) (Nat.div_lt_self (by omega) (by omega))]
      have : digitsVal [digitChar (n % 10)] = n % 10 := by
        unfold digitsVal
        simp [digitVal_digitChar (Nat.mod_lt n (by omega) : n % 10 < 10)]
      rw [this]
      simp
      omega

theorem takeWhile_eq_self {p : Char → Bool} {l : List Char}
    (h : ∀ x ∈ l, p x = true) : l.takeWhile p = l := by
  induction l with
  | nil => rfl
  | cons c t ih =>
    rw [List.takeWhile_cons_of_pos (h c (List.mem_cons_self c t))]
    rw [ih (fun x hx => h x (List.mem_cons_of_mem c hx))]

theorem digit_not_space {x : Char} (h : isDigitChar x = true) : isJsSpace x = false := by
  unfold isDigitChar at h
  unfold isJsSpace
  simp only [Bool.and_eq_true, decide_eq_true_eq] at h
  simp only [Bool.or_eq_false_iff, decide_eq_false_iff_not, Bool.and_eq_false_iff]
  omega

theorem digit_toNat {x : Char} (h : isDigitChar x = true) :
    48 ≤ x.toNat ∧ x.toNat ≤ 57 := by
  unfold isDigitChar at h
  simp only [Bool.and_eq_true, decide_eq_true_eq] at h
  exact h

theorem parseDigits_all {l : List Char} (hd : ∀ x ∈ l, isDigitChar x = true)
    (hne : l ≠ []) : parseDigits l = some (digitsVal l) := by
  unfold parseDigits
  rw [takeWhile_eq_self hd]
  simp [hne]

theorem jsParseInt_digits (n : Nat) : jsParseInt (natToChars n []) = some (n : Int) := by
  cases hc : natToChars n [] with
  | nil => exact absurd hc (natToChars_ne_nil n)
  | cons y t =>
    have hy : isDigitChar y = true := natToChars_mem (hc ▸ List.mem_cons_self y t)
    have hyn := digit_toNat hy
    have hdrop : (y :: t).dropWhile isJsSpace = y :: t :=
      List.dropWhile_cons_of_neg (by simp [digit_not_space hy])
    have hne1 : y ≠ '-' := by
      intro he; rw [he] at hyn; revert hyn; decide
    have hne2 : y ≠ '+' := by
      intro he; rw [he] at hyn; revert hyn; decide
    unfold jsParseInt
    rw [hdrop]
    simp only [List.isEmpty_cons, List.headD_cons, Bool.false_eq_true, if_false,
      if_neg hne1, if_neg hne2]
    rw [← hc, parseDigits_all (fun x hx => natToChars_mem hx) (natToChars_ne_nil n),
      digitsVal_natToChars]
    rfl

theorem jsParseInt_inv (v : Option Int) : jsParseInt (jsNumToChars v) = v := by
  match v with
  | none => decide
  | some i =>
    by_cases hneg : i < 0
    · have hout : jsNumToChars (some i) = '-' :: natToChars i.natAbs [] := by
        show intToChars i = _
        unfold intToChars
        rw [if_pos hneg]
      rw [hout]
      unfold jsParseInt
      rw [List.dropWhile_cons_of_neg (by decide : ¬isJsSpace '-' = true)]
      simp only [List.isEmpty_cons, List.headD_cons, Bool.false_eq_true, if_false,
        if_pos rfl, List.tail_cons]
      rw [parseDigits_all (fun x hx => natToChars_mem hx) (natToChars_ne_nil _),
        digitsVal_natToChars]
      have habs : ((i.natAbs : Int)) = -i := Int.ofNat_natAbs_of_nonpos (le_of_lt hneg)
      simp [habs]
    · have hout : jsNumToChars (some i) = natToChars i.natAbs [] := by
        show intToChars i = _
        unfold intToChars
        rw [if_neg hneg]
      rw [hout, jsParseInt_digits, Int.natAbs_of_nonneg (not_lt.mp hneg)]

end DigitLemmas

section ParseWF

theorem trim_fix_split {m : List Char} (h : jsTrim m = m) : ltrimmed m ∧ rtrimmed m :=
  ⟨h ▸ ltrimmed_jsTrim m, h ▸ rtrimmed_jsTrim m⟩

theorem ltrimmed_toLowerL {m : List Char} (h : ltrimmed m) : ltrimmed (toLowerL m) := by
  unfold ltrimmed toLowerL
  rw [List.dropWhile_map]
  have hp : (isJsSpace ∘ toLowerJS) = isJsSpace := funext isJsSpace_toLowerJS
  rw [hp]
  unfold ltrimmed at h
  rw [h]

theorem rtrimmed_toLowerL {m : List Char} (h : rtrimmed m) : rtrimmed (toLowerL m) := by
  unfold rtrimmed toLowerL
  rw [← List.map_reverse]
  exact ltrimmed_toLowerL h

theorem jsTrim_toLowerL {m : List Char} (h : jsTrim m = m) :
    jsTrim (toLowerL m) = toLowerL m := by
  obtain ⟨h1, h2⟩ := trim_fix_split h
  exact jsTrim_eq_self (ltrimmed_toLowerL h1) (rtrimmed_toLowerL h2)

theorem parseCookie_eq {s : List Char} {c : Cookie} (h : parseCookie s = some c) :
    ∃ nameValue attributes eqIndex,
      (splitOnChar ';' s).map jsTrim = nameValue :: attributes ∧
      nameValue ≠ [] ∧ firstIdxOf '=' nameValue = some eqIndex ∧
      c = attributes.foldl applyAttr
        { name := jsTrim (nameValue.take eqIndex)
          value := nameValue.drop (eqIndex + 1)
          raw := s } := by
  cases hp : (splitOnChar ';' s).map jsTrim with
  | nil => exact absurd (congrArg List.length hp) (by simp [splitOnChar_ne_nil ';' s])
  | cons nameValue attributes =>
    unfold parseCookie at h
    rw [hp] at h
    simp only [List.headD, List.tail_cons] at h
    split at h
    · exact absurd h (by simp)
    · split at h
      · exact absurd h (by simp)
      · obtain ⟨eqIndex, hidx, hc⟩ := Option.map_eq_some'.mp h
        exact ⟨nameValue, attributes, eqIndex, rfl, by assumption, hidx, hc.symm⟩

theorem drop_after_eq {a b : List Char} :
    (a ++ '=' :: b).drop (a.length + 1) = b := by
  rw [show a.length + 1 = (a ++ ['=']).length by simp,
    show a ++ '=' :: b = (a ++ ['=']) ++ b by simp, List.drop_left]

theorem base_cookie_wf {s nameValue : List Char} {eqIndex : Nat}
    (hnv : ';' ∉ nameValue) (hnvt : jsTrim nameValue = nameValue)
    (hidx : firstIdxOf '=' nameValue = some eqIndex) :
    CookieWF
      { name := jsTrim (nameValue.take eqIndex)
        value := nameValue.drop (eqIndex + 1)
        raw := s } := by
  obtain ⟨a, b, hab, hlen, hmem⟩ := firstIdxOf_spec hidx
  have htake : nameValue.take eqIndex = a := by
    rw [hab, ← hlen, List.take_left]
  have hdrop : nameValue.drop (eqIndex + 1) = b := by
    rw [hab, ← hlen, drop_after_eq]
  have hbsub : b ⊆ nameValue := by
    rw [hab]
    intro x hx
    exact List.mem_append.mpr (Or.inr (List.mem_cons_of_mem _ hx))
  have hasub : a ⊆ nameValue := by
    rw [hab]
    intro x hx
    exact List.mem_append.mpr (Or.inl hx)
  have hname_sub : jsTrim (nameValue.take eqIndex) ⊆ a := by
    rw [htake]; exact jsTrim_subset a
  refine ⟨jsTrim_idem _, ?_, ?_, ?_, ?_, (fun d hd => nomatch hd), (fun p hp => nomatch hp),
    (fun e he => nomatch he), (fun v hv => nomatch hv)⟩
  · intro hm
    exact hnv (hasub (hname_sub hm))
  · intro hm
    exact hmem (hname_sub hm)
  · intro hm
    exact hnv (hbsub (hdrop ▸ hm))
  · show jsTrim (jsTrim (nameValue.take eqIndex) ++ '=' :: nameValue.drop (eqIndex + 1)) = _
    rw [htake, hdrop]
    apply jsTrim_eq_self
    · cases hn : jsTrim a with
      | nil => exact ltrimmed_cons (by decide)
      | cons x t =>
        have := ltrimmed_jsTrim a
        rw [hn] at this
        exact ltrimmed_cons (ltrimmed_cons_head this)
    · unfold rtrimmed
      rw [List.reverse_append, List.reverse_cons]
      have hbrev : ltrimmed b.reverse := by
        have hnvr : ltrimmed nameValue.reverse := (trim_fix_split hnvt).2
        apply ltrimmed_of_isPrefix _ hnvr
        refine ⟨'=' :: a.reverse, ?_⟩
        rw [hab]
        simp
      cases hbr : b.reverse with
      | nil =>
        simp only [hbr, List.nil_append]
        exact ltrimmed_cons (by decide)
      | cons x t =>
        rw [hbr] at hbrev
        rw [List.append_assoc]
        exact ltrimmed_append hbrev (by simp)

theorem applyAttr_wf {c : Cookie} {attr : List Char} (hsem : ';' ∉ attr)
    (hw : CookieWF c) : CookieWF (applyAttr c attr) := by
  have hdropsub : ∀ n : Nat, jsTrim (attr.drop n) ⊆ attr :=
    fun n x hx => List.drop_subset n attr (jsTrim_subset _ hx)
  simp only [applyAttr]
  split
  · exact ⟨hw.nameTrim, hw.nameNoSemi, hw.nameNoEq, hw.valueNoSemi, hw.nvTrim,
      hw.domainWF, hw.pathWF, hw.expiresWF, hw.sameSiteWF⟩
  · split
    · exact ⟨hw.nameTrim, hw.nameNoSemi, hw.nameNoEq, hw.valueNoSemi, hw.nvTrim,
        hw.domainWF, hw.pathWF, hw.expiresWF, hw.sameSiteWF⟩
    · split
      · refine ⟨hw.nameTrim, hw.nameNoSemi, hw.nameNoEq, hw.valueNoSemi, hw.nvTrim,
          ?_, hw.pathWF, hw.expiresWF, hw.sameSiteWF⟩
        intro d hd
        have hd' := Option.some.inj hd
        rw [← hd']
        exact ⟨jsTrim_idem _, fun hm => hsem (hdropsub 7 hm)⟩
      · split
        · refine ⟨hw.nameTrim, hw.nameNoSemi, hw.nameNoEq, hw.valueNoSemi, hw.nvTrim,
            hw.domainWF, ?_, hw.expiresWF, hw.sameSiteWF⟩
          intro p hp
          have hp' := Option.some.inj hp
          rw [← hp']
          exact ⟨jsTrim_idem _, fun hm => hsem (hdropsub 5 hm)⟩
        · split
          · refine ⟨hw.nameTrim, hw.nameNoSemi, hw.nameNoEq, hw.valueNoSemi, hw.nvTrim,
              hw.domainWF, hw.pathWF, ?_, hw.sameSiteWF⟩
            intro e he
            have he' := Option.some.inj he
            rw [← he']
            exact ⟨jsTrim_idem _, fun hm => hsem (hdropsub 8 hm)⟩
          · split
            · exact ⟨hw.nameTrim, hw.nameNoSemi, hw.nameNoEq, hw.valueNoSemi, hw.nvTrim,
                hw.domainWF, hw.pathWF, hw.expiresWF, hw.sameSiteWF⟩
            · split
              · refine ⟨hw.nameTrim, hw.nameNoSemi, hw.nameNoEq, hw.valueNoSemi, hw.nvTrim,
                  hw.domainWF, hw.pathWF, hw.expiresWF, ?_⟩
                intro v hv
                have hv' := Option.some.inj hv
                rw [← hv']
                refine ⟨jsTrim_toLowerL (jsTrim_idem _), ?_, toLowerL_idem _⟩
                intro hm
                obtain ⟨x, hx, hlx⟩ := List.mem_map.mp hm
                exact hsem (hdropsub 9 (toLowerJS_eq_semi hlx ▸ hx))
              · exact ⟨hw.nameTrim, hw.nameNoSemi, hw.nameNoEq, hw.valueNoSemi, hw.nvTrim,
                  hw.domainWF, hw.pathWF, hw.expiresWF, hw.sameSiteWF⟩

theorem foldl_applyAttr_wf {attrs : List (List Char)} {c : Cookie}
    (hattrs : ∀ a ∈ attrs, ';' ∉ a) (hw : CookieWF c) :
    CookieWF (attrs.foldl applyAttr c) := by
  induction attrs generalizing c with
  | nil => exact hw
  | cons a rest ih =>
    rw [List.foldl_cons]
    exact ih (fun x hx => hattrs x (List.mem_cons_of_mem a hx))
      (applyAttr_wf (hattrs a (List.mem_cons_self a rest)) hw)

theorem parseCookie_wf {s : List Char} {c : Cookie} (h : parseCookie s = some c) :
    CookieWF c := by
  obtain ⟨nameValue, attributes, eqIndex, heq, hne, hidx, hc⟩ := parseCookie_eq h
  have hparts : ∀ p ∈ (splitOnChar ';' s).map jsTrim, ';' ∉ p := by
    intro p hp
    obtain ⟨q, hq, hqp⟩ := List.mem_map.mp hp
    intro hm
    exact not_mem_of_mem_splitOnChar hq (jsTrim_subset q (hqp ▸ hm))
  have htrims : ∀ p ∈ (splitOnChar ';' s).map jsTrim, jsTrim p = p := by
    intro p hp
    obtain ⟨q, hq, hqp⟩ := List.mem_map.mp hp
    rw [← hqp]
    exact jsTrim_idem q
  have hnv_mem : nameValue ∈ (splitOnChar ';' s).map jsTrim := by
    rw [heq]; exact List.mem_cons_self _ _
  have hattrs : ∀ a ∈ attributes, ';' ∉ a := by
    intro a ha
    exact hparts a (by rw [heq]; exact List.mem_cons_of_mem _ ha)
  rw [hc]
  exact foldl_applyAttr_wf hattrs
    (base_cookie_wf (hparts nameValue hnv_mem) (htrims nameValue hnv_mem) hidx)

end ParseWF

section SerializeLemmas

theorem append_ne_of_head {a b : Char} (h : a ≠ b) (as bs x : List Char) :
    ¬(a :: as ++ x = b :: bs) := by
  intro he
  rw [List.cons_append] at he
  exact h (List.cons.inj he).1

theorem append_ne_two {a b d : Char} (h : b ≠ d) (as bs x : List Char) :
    ¬(a :: b :: as ++ x = a :: d :: bs) := by
  intro he
  rw [List.cons_append] at he
  exact h (List.cons.inj (List.cons.inj he).2).1

theorem not_startsWith_of_head_ne {a b : Char} (h : a ≠ b) (ps cs : List Char) :
    ¬(jsStartsWith (a :: ps) (b :: cs) = true) := by
  simp [jsStartsWith]
  intro hc
  exact absurd hc h

theorem truthyOpt_eq_some {o : Option (List Char)} {v : List Char}
    (h : truthyOpt o = some v) : o = some v ∧ v ≠ [] := by
  rcases o with _ | w
  · exact absurd h (by simp [truthyOpt])
  · by_cases hw : w = []
    · rw [show truthyOpt (some w) = none from by simp [truthyOpt, hw]] at h
      exact absurd h (by simp)
    · rw [show truthyOpt (some w) = some w from by simp [truthyOpt, hw]] at h
      have hv := Option.some.inj h
      subst hv
      exact ⟨rfl, hw⟩

theorem jsNumToChars_ne_nil (v : Option Int) : jsNumToChars v ≠ [] := by
  rcases v with _ | i
  · simp [jsNumToChars]
  · show intToChars i ≠ []
    unfold intToChars
    split
    · simp
    · exact natToChars_ne_nil _

theorem ltrimmed_of_digits {l : List Char} (h : ∀ x ∈ l, isDigitChar x = true) :
    ltrimmed l := by
  cases l with
  | nil => exact ltrimmed_nil
  | cons y t => exact ltrimmed_cons (digit_not_space (h y (List.mem_cons_self y t)))

theorem jsNumToChars_no_semi (v : Option Int) : ';' ∉ jsNumToChars v := by
  rcases v with _ | i
  · decide
  · show ';' ∉ intToChars i
    unfold intToChars
    have hdig : ';' ∉ natToChars i.natAbs [] := by
      intro hm
      have := digit_toNat (natToChars_mem hm)
      revert this
      decide
    split
    · intro hm
      rcases List.mem_cons.mp hm with h1 | h1
      · exact absurd h1.symm (by decide)
      · exact hdig h1
    · exact hdig

theorem jsTrim_jsNumToChars (v : Option Int) : jsTrim (jsNumToChars v) = jsNumToChars v := by
  rcases v with _ | i
  · decide
  · show jsTrim (intToChars i) = intToChars i
    have hlt : ltrimmed (natToChars i.natAbs []) :=
      ltrimmed_of_digits (fun x hx => natToChars_mem hx)
    have hrt : rtrimmed (natToChars i.natAbs []) := by
      unfold rtrimmed
      apply ltrimmed_of_digits
      intro x hx
      exact natToChars_mem (List.mem_reverse.mp hx)
    unfold intToChars
    split
    · apply jsTrim_eq_self
      · exact ltrimmed_cons (by decide)
      · unfold rtrimmed
        rw [List.reverse_cons]
        cases hr : (natToChars i.natAbs []).reverse with
        | nil =>
          exact absurd (by simpa using congrArg List.reverse hr) (natToChars_ne_nil _)
        | cons y t =>
          unfold rtrimmed at hrt
          rw [hr] at hrt
          exact ltrimmed_append hrt (by simp)
    · exact jsTrim_eq_self hlt hrt

theorem applyAttr_domain (cur : Cookie) (d : List Char) :
    applyAttr cur ("Domain=".data ++ d) = { cur with domain := some (jsTrim d) } := by
  have hmap : toLowerL ("Domain=".data ++ d) = "domain=".data ++ toLowerL d := by
    unfold toLowerL
    rw [List.map_append]
    rfl
  simp only [applyAttr, hmap]
  rw [if_neg (show ¬(("domain=".data : List Char) ++ toLowerL d = "secure".data) from
    append_ne_of_head (by decide) _ _ _)]
  rw [if_neg (show ¬(("domain=".data : List Char) ++ toLowerL d = "httponly".data) from
    append_ne_of_head (by decide) _ _ _)]
  rw [if_pos (jsStartsWith_append "domain=".data (toLowerL d))]
  rw [show (("Domain=".data : List Char) ++ d).drop 7 = d from by
    rw [show (7 : Nat) = ("Domain=".data : List Char).length from rfl, List.drop_left]]

theorem applyAttr_path (cur : Cookie) (p : List Char) :
    applyAttr cur ("Path=".data ++ p) = { cur with path := some (jsTrim p) } := by
  have hmap : toLowerL ("Path=".data ++ p) = "path=".data ++ toLowerL p := by
    unfold toLowerL
    rw [List.map_append]
    rfl
  simp only [applyAttr, hmap]
  rw [if_neg (show ¬(("path=".data : List Char) ++ toLowerL p = "secure".data) from
    append_ne_of_head (by decide) _ _ _)]
  rw [if_neg (show ¬(("path=".data : List Char) ++ toLowerL p = "httponly".data) from
    append_ne_of_head (by decide) _ _ _)]
  rw [if_neg (show ¬(jsStartsWith "domain=".data (("path=".data : List Char) ++ toLowerL p)
      = true) from not_startsWith_of_head_ne (by decide) _ _)]
  rw [if_pos (jsStartsWith_append "path=".data (toLowerL p))]
  rw [show (("Path=".data : List Char) ++ p).drop 5 = p from by
    rw [show (5 : Nat) = ("Path=".data : List Char).length from rfl, List.drop_left]]

theorem applyAttr_expires (cur : Cookie) (e : List Char) :
    applyAttr cur ("Expires=".data ++ e) = { cur with expires := some (jsTrim e) } := by
  have hmap : toLowerL ("Expires=".data ++ e) = "expires=".data ++ toLowerL e := by
    unfold toLowerL
    rw [List.map_append]
    rfl
  simp only [applyAttr, hmap]
  rw [if_neg (show ¬(("expires=".data : List Char) ++ toLowerL e = "secure".data) from
    append_ne_of_head (by decide) _ _ _)]
  rw [if_neg (show ¬(("expires=".data : List Char) ++ toLowerL e = "httponly".data) from
    append_ne_of_head (by decide) _ _ _)]
  rw [if_neg (show ¬(jsStartsWith "domain=".data (("expires=".data : List Char) ++ toLowerL e)
      = true) from not_startsWith_of_head_ne (by decide) _ _)]
  rw [if_neg (show ¬(jsStartsWith "path=".data (("expires=".data : List Char) ++ toLowerL e)
      = true) from not_startsWith_of_head_ne (by decide) _ _)]
  rw [if_pos (jsStartsWith_append "expires=".data (toLowerL e))]
  rw [show (("Expires=".data : List Char) ++ e).drop 8 = e from by
    rw [show (8 : Nat) = ("Expires=".data : List Char).length from rfl, List.drop_left]]

theorem applyAttr_maxAge (cur : Cookie) (m : List Char) :
    applyAttr cur ("Max-Age=".data ++ m) =
      { cur with maxAge := some (jsParseInt (jsTrim m)) } := by
  have hmap : toLowerL ("Max-Age=".data ++ m) = "max-age=".data ++ toLowerL m := by
    unfold toLowerL
    rw [List.map_append]
    rfl
  simp only [applyAttr, hmap]
  rw [if_neg (show ¬(("max-age=".data : List Char) ++ toLowerL m = "secure".data) from
    append_ne_of_head (by decide) _ _ _)]
  rw [if_neg (show ¬(("max-age=".data : List Char) ++ toLowerL m = "httponly".data) from
    append_ne_of_head (by decide) _ _ _)]
  rw [if_neg (show ¬(jsStartsWith "domain=".data (("max-age=".data : List Char) ++ toLowerL m)
      = true) from not_startsWith_of_head_ne (by decide) _ _)]
  rw [if_neg (show ¬(jsStartsWith "path=".data (("max-age=".data : List Char) ++ toLowerL m)
      = true) from not_startsWith_of_head_ne (by decide) _ _)]
  rw [if_neg (show ¬(jsStartsWith "expires=".data (("max-age=".data : List Char) ++ toLowerL m)
      = true) from not_startsWith_of_head_ne (by decide) _ _)]
  rw [if_pos (jsStartsWith_append "max-age=".data (toLowerL m))]
  rw [show (("Max-Age=".data : List Char) ++ m).drop 8 = m from by
    rw [show (8 : Nat) = ("Max-Age=".data : List Char).length from rfl, List.drop_left]]

theorem applyAttr_sameSite (cur : Cookie) (v : List Char) :
    applyAttr cur ("SameSite=".data ++ v) =
      { cur with sameSite := some (toLowerL (jsTrim v)) } := by
  have hmap : toLowerL ("SameSite=".data ++ v) = "samesite=".data ++ toLowerL v := by
    unfold toLowerL
    rw [List.map_append]
    rfl
  simp only [applyAttr, hmap]
  rw [if_neg (show ¬(("samesite=".data : List Char) ++ toLowerL v = "secure".data) from
    append_ne_two (by decide) _ _ _)]
  rw [if_neg (show ¬(("samesite=".data : List Char) ++ toLowerL v = "httponly".data) from
    append_ne_of_head (by decide) _ _ _)]
  rw [if_neg (show ¬(jsStartsWith "domain=".data (("samesite=".data : List Char) ++ toLowerL v)
      = true) from not_startsWith_of_head_ne (by decide) _ _)]
  rw [if_neg (show ¬(jsStartsWith "path=".data (("samesite=".data : List Char) ++ toLowerL v)
      = true) from not_startsWith_of_head_ne (by decide) _ _)]
  rw [if_neg (show ¬(jsStartsWith "expires=".data (("samesite=".data : List Char) ++ toLowerL v)
      = true) from not_startsWith_of_head_ne (by decide) _ _)]
  rw [if_neg (show ¬(jsStartsWith "max-age=".data (("samesite=".data : List Char) ++ toLowerL v)
      = true) from not_startsWith_of_head_ne (by decide) _ _)]
  rw [if_pos (jsStartsWith_append "samesite=".data (toLowerL v))]
  rw [show (("SameSite=".data : List Char) ++ v).drop 9 = v from by
    rw [show (9 : Nat) = ("SameSite=".data : List Char).length from rfl, List.drop_left]]

theorem applyAttr_secure (cur : Cookie) :
    applyAttr cur "Secure".data = { cur with secure := true } := by
  simp only [applyAttr]
  rw [if_pos (show toLowerL "Secure".data = "secure".data from rfl)]

theorem applyAttr_httpOnly (cur : Cookie) :
    applyAttr cur "HttpOnly".data = { cur with httpOnly := true } := by
  simp only [applyAttr]
  rw [if_neg (show ¬(toLowerL "HttpOnly".data = "secure".data) from by decide)]
  rw [if_pos (show toLowerL "HttpOnly".data = "httponly".data from rfl)]

end SerializeLemmas

section SerializeDecomp

theorem optAttr_flat (lab : List Char) (o : Option (List Char)) :
    optAttr (';' :: ' ' :: lab) o =
      ((match truthyOpt o with
        | some v => [lab ++ v]
        | none => ([] : List (List Char))).map (fun x => ';' :: ' ' :: x)).flatten := by
  rcases o with _ | v
  · rfl
  · by_cases hv : v = []
    · rw [show truthyOpt (some v) = none from by simp [truthyOpt, hv]]
      show (if v = [] then ([] : List Char) else (';' :: ' ' :: lab) ++ v) = _
      rw [if_pos hv]
      rfl
    · rw [show truthyOpt (some v) = some v from by simp [truthyOpt, hv]]
      show (if v = [] then ([] : List Char) else (';' :: ' ' :: lab) ++ v) = _
      rw [if_neg hv]
      simp

theorem serialize_decomp {c : Cookie} (hname : c.name ≠ []) :
    serializeCookie c = c.name ++ '=' :: c.value ++
      ((attrItems c).map (fun x => ';' :: ' ' :: x)).flatten := by
  unfold serializeCookie
  rw [if_neg hname]
  unfold attrItems
  rw [show ("; Domain=".data : List Char) = ';' :: ' ' :: "Domain=".data from rfl,
    show ("; Path=".data : List Char) = ';' :: ' ' :: "Path=".data from rfl,
    show ("; Expires=".data : List Char) = ';' :: ' ' :: "Expires=".data from rfl,
    show ("; SameSite=".data : List Char) = ';' :: ' ' :: "SameSite=".data from rfl,
    optAttr_flat, optAttr_flat, optAttr_flat, optAttr_flat]
  have hmax : (match c.maxAge with
      | none => ([] : List Char)
      | some v => "; Max-Age=".data ++ jsNumToChars v) =
      ((match c.maxAge with
        | some v => ["Max-Age=".data ++ jsNumToChars v]
        | none => ([] : List (List Char))).map (fun x => ';' :: ' ' :: x)).flatten := by
    rcases c.maxAge with _ | v
    · rfl
    · simp [List.flatten]

  have hsec : (if c.secure then ("; Secure".data : List Char) else []) =
      ((if c.secure then ["Secure".data] else ([] : List (List Char))).map
        (fun x => ';' :: ' ' :: x)).flatten := by
    by_cases hs : c.secure
    · rw [if_pos hs, if_pos hs]
      simp [List.flatten]
    · rw [if_neg hs, if_neg hs]
      rfl
  have hhttp : (if c.httpOnly then ("; HttpOnly".data : List Char) else []) =
      ((if c.httpOnly then ["HttpOnly".data] else ([] : List (List Char))).map
        (fun x => ';' :: ' ' :: x)).flatten := by
    by_cases hs : c.httpOnly
    · rw [if_pos hs, if_pos hs]
      simp [List.flatten]
    · rw [if_neg hs, if_neg hs]
      rfl
  rw [hmax, hsec, hhttp]
  simp only [List.map_append, List.flatten_append, List.append_assoc]

theorem item_ok {lab v : List Char} (hlab : ltrimmed lab) (hlabne : lab ≠ [])
    (hlabsemi : ';' ∉ lab) (hvtr : jsTrim v = v) (hvs : ';' ∉ v) (hvne : v ≠ []) :
    ';' ∉ (lab ++ v) ∧ jsTrim (' ' :: (lab ++ v)) = lab ++ v := by
  constructor
  · intro hm
    rcases List.mem_append.mp hm with h1 | h1
    · exact hlabsemi h1
    · exact hvs h1
  · apply jsTrim_cons_space
    · exact ltrimmed_append hlab hlabne
    · unfold rtrimmed
      rw [List.reverse_append]
      cases hv : v.reverse with
      | nil => exact absurd (by simpa using congrArg List.reverse hv) hvne
      | cons y t =>
        have hvr : ltrimmed v.reverse := (trim_fix_split hvtr).2
        rw [hv] at hvr
        exact ltrimmed_append hvr (by simp)

theorem mem_string_piece {m lab : List Char} {o : Option (List Char)}
    (hm : m ∈ (match truthyOpt o with
      | some v => [lab ++ v]
      | none => ([] : List (List Char)))) :
    ∃ v, truthyOpt o = some v ∧ m = lab ++ v := by
  rcases ho : truthyOpt o with _ | v
  · rw [ho] at hm
    exact absurd hm (by simp)
  · rw [ho] at hm
    simp at hm
    exact ⟨v, rfl, hm⟩

theorem attrItems_props {c : Cookie} (hwf : CookieWF c) :
    ∀ m ∈ attrItems c, ';' ∉ m ∧ jsTrim (' ' :: m) = m := by
  intro m hm
  unfold attrItems at hm
  rcases List.mem_append.mp hm with hm1 | hm1
  swap
  · -- HttpOnly piece
    by_cases hb : c.httpOnly
    · rw [if_pos hb] at hm1
      simp at hm1
      rw [hm1]
      refine ⟨by decide, ?_⟩
      apply jsTrim_cons_space
      · exact ltrimmed_cons (by decide)
      · exact ltrimmed_cons (by decide)
    · rw [if_neg hb] at hm1
      exact absurd hm1 (by simp)
  rcases List.mem_append.mp hm1 with hm2 | hm2
  swap
  · -- Secure piece
    by_cases hb : c.secure
    · rw [if_pos hb] at hm2
      simp at hm2
      rw [hm2]
      refine ⟨by decide, ?_⟩
      apply jsTrim_cons_space
      · exact ltrimmed_cons (by decide)
      · exact ltrimmed_cons (by decide)
    · rw [if_neg hb] at hm2
      exact absurd hm2 (by simp)
  rcases List.mem_append.mp hm2 with hm3 | hm3
  swap
  · -- SameSite piece
    obtain ⟨v, hv, hmv⟩ := mem_string_piece hm3
    obtain ⟨hvsome, hvne⟩ := truthyOpt_eq_some hv
    obtain ⟨htr, hsemi, _⟩ := hwf.sameSiteWF v hvsome
    rw [hmv]
    exact @item_ok ("SameSite=".data) v (ltrimmed_cons (by decide)) (by simp) (by decide)
      htr hsemi hvne
  rcases List.mem_append.mp hm3 with hm4 | hm4
  swap
  · -- Max-Age piece
    rcases hma : c.maxAge with _ | v
    · rw [hma] at hm4
      exact absurd hm4 (by simp)
    · rw [hma] at hm4
      simp at hm4
      rw [hm4]
      exact @item_ok ("Max-Age=".data) (jsNumToChars v) (ltrimmed_cons (by decide)) (by simp)
        (by decide) (jsTrim_jsNumToChars v) (jsNumToChars_no_semi v) (jsNumToChars_ne_nil v)
  rcases List.mem_append.mp hm4 with hm5 | hm5
  swap
  · -- Expires piece
    obtain ⟨v, hv, hmv⟩ := mem_string_piece hm5
    obtain ⟨hvsome, hvne⟩ := truthyOpt_eq_some hv
    obtain ⟨htr, hsemi⟩ := hwf.expiresWF v hvsome
    rw [hmv]
    exact @item_ok ("Expires=".data) v (ltrimmed_cons (by decide)) (by simp) (by decide)
      htr hsemi hvne
  rcases List.mem_append.mp hm5 with hm6 | hm6
  swap
  · -- Path piece
    obtain ⟨v, hv, hmv⟩ := mem_string_piece hm6
    obtain ⟨hvsome, hvne⟩ := truthyOpt_eq_some hv
    obtain ⟨htr, hsemi⟩ := hwf.pathWF v hvsome
    rw [hmv]
    exact @item_ok ("Path=".data) v (ltrimmed_cons (by decide)) (by simp) (by decide)
      htr hsemi hvne
  · -- Domain piece
    obtain ⟨v, hv, hmv⟩ := mem_string_piece hm6
    obtain ⟨hvsome, hvne⟩ := truthyOpt_eq_some hv
    obtain ⟨htr, hsemi⟩ := hwf.domainWF v hvsome
    rw [hmv]
    exact @item_ok ("Domain=".data) v (ltrimmed_cons (by decide)) (by simp) (by decide)
      htr hsemi hvne

theorem split_flat {s0 : List Char} (h0 : ';' ∉ s0) {items : List (List Char)}
    (hI : ∀ i ∈ items, ';' ∉ i) :
    splitOnChar ';' (s0 ++ (items.map (fun x => ';' :: ' ' :: x)).flatten) =
      s0 :: items.map (fun x => ' ' :: x) := by
  induction items generalizing s0 with
  | nil => simp [splitOnChar_of_not_mem h0]
  | cons i rest ih =>
    simp only [List.map_cons, List.flatten_cons]
    rw [show s0 ++ ((';' :: ' ' :: i) ++ ((rest.map (fun x => ';' :: ' ' :: x)).flatten)) =
        s0 ++ ';' :: ((' ' :: i) ++ ((rest.map (fun x => ';' :: ' ' :: x)).flatten)) by simp]
    rw [splitOnChar_append h0]
    have hsp : ';' ∉ ' ' :: i := by
      intro hx
      rcases List.mem_cons.mp hx with h1 | h1
      · exact absurd h1.symm (by decide)
      · exact hI i (List.mem_cons_self i rest) h1
    rw [ih hsp (fun x hx => hI x (List.mem_cons_of_mem i hx))]

end SerializeDecomp

section FoldPieces

theorem fold_domain (cur : Cookie) (o : Option (List Char))
    (htr : ∀ d, o = some d → jsTrim d = d) (h0 : cur.domain = none) :
    List.foldl applyAttr cur
      (match truthyOpt o with
       | some d => ["Domain=".data ++ d]
       | none => []) = { cur with domain := truthyOpt o } := by
  rcases ho : truthyOpt o with _ | d
  · simp only [List.foldl_nil]
    rw [← h0]
  · obtain ⟨hsome, _⟩ := truthyOpt_eq_some ho
    simp only [List.foldl_cons, List.foldl_nil]
    have hstep := applyAttr_domain cur d
    rw [htr d hsome] at hstep
    exact hstep

theorem fold_path (cur : Cookie) (o : Option (List Char))
    (htr : ∀ p, o = some p → jsTrim p = p) (h0 : cur.path = none) :
    List.foldl applyAttr cur
      (match truthyOpt o with
       | some p => ["Path=".data ++ p]
       | none => []) = { cur with path := truthyOpt o } := by
  rcases ho : truthyOpt o with _ | p
  · simp only [List.foldl_nil]
    rw [← h0]
  · obtain ⟨hsome, _⟩ := truthyOpt_eq_some ho
    simp only [List.foldl_cons, List.foldl_nil]
    have hstep := applyAttr_path cur p
    rw [htr p hsome] at hstep
    exact hstep

theorem fold_expires (cur : Cookie) (o : Option (List Char))
    (htr : ∀ e, o = some e → jsTrim e = e) (h0 : cur.expires = none) :
    List.foldl applyAttr cur
      (match truthyOpt o with
       | some e => ["Expires=".data ++ e]
       | none => []) = { cur with expires := truthyOpt o } := by
  rcases ho : truthyOpt o with _ | e
  · simp only [List.foldl_nil]
    rw [← h0]
  · obtain ⟨hsome, _⟩ := truthyOpt_eq_some ho
    simp only [List.foldl_cons, List.foldl_nil]
    have hstep := applyAttr_expires cur e
    rw [htr e hsome] at hstep
    exact hstep

theorem fold_maxAge (cur : Cookie) (mo : Option (Option Int)) (h0 : cur.maxAge = none) :
    List.foldl applyAttr cur
      (match mo with
       | some v => ["Max-Age=".data ++ jsNumToChars v]
       | none => []) = { cur with maxAge := mo } := by
  rcases mo with _ | v
  · simp only [List.foldl_nil]
    rw [← h0]
  · simp only [List.foldl_cons, List.foldl_nil]
    have hstep := applyAttr_maxAge cur (jsNumToChars v)
    rw [jsTrim_jsNumToChars, jsParseInt_inv] at hstep
    exact hstep

theorem fold_sameSite (cur : Cookie) (o : Option (List Char))
    (htr : ∀ v, o = some v → jsTrim v = v ∧ toLowerL v = v) (h0 : cur.sameSite = none) :
    List.foldl applyAttr cur
      (match truthyOpt o with
       | some v => ["SameSite=".data ++ v]
       | none => []) = { cur with sameSite := truthyOpt o } := by
  rcases ho : truthyOpt o with _ | v
  · simp only [List.foldl_nil]
    rw [← h0]
  · obtain ⟨hsome, _⟩ := truthyOpt_eq_some ho
    simp only [List.foldl_cons, List.foldl_nil]
    have hstep := applyAttr_sameSite cur v
    rw [(htr v hsome).1, (htr v hsome).2] at hstep
    exact hstep

theorem fold_secure (cur : Cookie) (b : Bool) (h0 : cur.secure = false) :
    List.foldl applyAttr cur (if b then ["Secure".data] else []) =
      { cur with secure := b } := by
  cases b
  · rw [if_neg (show ¬(false = true) by decide), List.foldl_nil, ← h0]
  · rw [if_pos rfl, List.foldl_cons, List.foldl_nil, applyAttr_secure]

theorem fold_httpOnly (cur : Cookie) (b : Bool) (h0 : cur.httpOnly = false) :
    List.foldl applyAttr cur (if b then ["HttpOnly".data] else []) =
      { cur with httpOnly := b } := by
  cases b
  · rw [if_neg (show ¬(false = true) by decide), List.foldl_nil, ← h0]
  · rw [if_pos rfl, List.foldl_cons, List.foldl_nil, applyAttr_httpOnly]

end FoldPieces

section ParseSerialize

theorem parse_serialize {c : Cookie} (hwf : CookieWF c) (hname : c.name ≠ []) :
    parseCookie (serializeCookie c) = some
      { name := c.name, value := c.value, domain := truthyOpt c.domain
        path := truthyOpt c.path, expires := truthyOpt c.expires
        maxAge := c.maxAge, secure := c.secure, httpOnly := c.httpOnly
        sameSite := truthyOpt c.sameSite, raw := serializeCookie c } := by
  have hdec := serialize_decomp hname
  have hItems := attrItems_props hwf
  have hs0semi : ';' ∉ c.name ++ '=' :: c.value := by
    intro hm
    rcases List.mem_append.mp hm with h1 | h1
    · exact hwf.nameNoSemi h1
    · rcases List.mem_cons.mp h1 with h2 | h2
      · exact absurd h2.symm (by decide)
      · exact hwf.valueNoSemi h2
  have hs0ne : c.name ++ '=' :: c.value ≠ [] := by
    cases hn : c.name with
    | nil => exact absurd hn hname
    | cons x t => simp
  have hsplit : splitOnChar ';' (serializeCookie c) =
      (c.name ++ '=' :: c.value) :: (attrItems c).map (fun x => ' ' :: x) := by
    rw [hdec]
    exact split_flat hs0semi (fun i hi => (hItems i hi).1)
  have hne : serializeCookie c ≠ [] := by
    rw [hdec]
    cases hn : c.name with
    | nil => exact absurd hn hname
    | cons x t => simp
  have hattrs : ((attrItems c).map (fun x => ' ' :: x)).map jsTrim = attrItems c := by
    rw [List.map_map]
    have hpt : ∀ m ∈ attrItems c, (jsTrim ∘ fun x => ' ' :: x) m = id m :=
      fun m hm => (hItems m hm).2
    rw [List.map_congr_left hpt, List.map_id]
  simp only [parseCookie]
  rw [if_neg hne, hsplit, List.map_cons, hattrs]
  simp only [List.headD, List.tail_cons]
  rw [hwf.nvTrim, if_neg hs0ne, firstIdxOf_append hwf.nameNoEq]
  simp only [Option.map_some']
  rw [show (c.name ++ '=' :: c.value).take c.name.length = c.name from List.take_left ..,
    hwf.nameTrim, drop_after_eq]
  unfold attrItems
  rw [List.foldl_append, List.foldl_append, List.foldl_append, List.foldl_append,
    List.foldl_append, List.foldl_append]
  rw [fold_domain _ _ (fun d hd => (hwf.domainWF d hd).1) rfl]
  rw [fold_path _ _ (fun p hp => (hwf.pathWF p hp).1) rfl]
  rw [fold_expires _ _ (fun e he => (hwf.expiresWF e he).1) rfl]
  rw [fold_maxAge _ _ rfl]
  rw [fold_sameSite _ _
    (fun v hv => ⟨(hwf.sameSiteWF v hv).1, (hwf.sameSiteWF v hv).2.2⟩) rfl]
  rw [fold_secure _ _ rfl]
  rw [fold_httpOnly _ _ rfl]

end ParseSerialize

section RewriteSteps

theorem truthyOpt_of_ne {o : Option (List Char)} (h : o ≠ some []) : truthyOpt o = o := by
  rcases o with _ | v
  · rfl
  · unfold truthyOpt
    dsimp only
    rw [if_neg (fun hv => h (by rw [hv]))]

theorem serialize_norm (c : Cookie) (r : List Char) :
    serializeCookie
      { name := c.name, value := c.value, domain := truthyOpt c.domain
        path := truthyOpt c.path, expires := truthyOpt c.expires
        maxAge := c.maxAge, secure := c.secure, httpOnly := c.httpOnly
        sameSite := truthyOpt c.sameSite, raw := r } = serializeCookie c := by
  have hopt : ∀ (lab : List Char) (o : Option (List Char)),
      optAttr lab (truthyOpt o) = optAttr lab o := by
    intro lab o
    rcases o with _ | v
    · rfl
    · by_cases hv : v = []
      · rw [show truthyOpt (some v) = none from by simp [truthyOpt, hv]]
        show ([] : List Char) = optAttr lab (some v)
        unfold optAttr
        dsimp only
        rw [if_pos hv]
      · rw [show truthyOpt (some v) = some v from by simp [truthyOpt, hv]]
  unfold serializeCookie
  simp only [hopt]

theorem rewriteSecure_secure (c : Cookie) : rewriteSecure true c = c := by
  unfold rewriteSecure
  rw [if_neg (by simp)]

theorem rewriteSameSite_secure (c : Cookie) : rewriteSameSite true c = c := by
  unfold rewriteSameSite
  rw [if_neg (by simp)]

theorem defaultPath_name (c : Cookie) : (defaultPath c).name = c.name := by
  unfold defaultPath
  rcases c.path with _ | p
  · rfl
  · dsimp only
    by_cases hp : p = []
    · rw [if_pos hp]
    · rw [if_neg hp]

theorem defaultPath_domain (c : Cookie) : (defaultPath c).domain = c.domain := by
  unfold defaultPath
  rcases c.path with _ | p
  · rfl
  · dsimp only
    by_cases hp : p = []
    · rw [if_pos hp]
    · rw [if_neg hp]

theorem defaultPath_path (c : Cookie) :
    ∃ q, (defaultPath c).path = some q ∧ q ≠ [] := by
  unfold defaultPath
  rcases hcp : c.path with _ | p
  · exact ⟨"/".data, rfl, by decide⟩
  · dsimp only
    by_cases hp : p = []
    · rw [if_pos hp]
      exact ⟨"/".data, rfl, by decide⟩
    · rw [if_neg hp]
      exact ⟨p, hcp, hp⟩

theorem defaultPath_of_truthy {c : Cookie} {q : List Char} (h : c.path = some q)
    (hq : q ≠ []) : defaultPath c = c := by
  unfold defaultPath
  rw [h]
  dsimp only
  rw [if_neg hq]

theorem swRewriteDomain_name (o : SwRewriteOptions) (c : Cookie) :
    (swRewriteDomain o c).name = c.name := by
  unfold swRewriteDomain
  rcases c.domain with _ | d
  · rfl
  · dsimp only
    by_cases hd : d = []
    · rw [if_pos hd]
    · rw [if_neg hd]
      rcases o.proxyHostname with _ | ph
      · rfl
      · dsimp only
        by_cases hc : ph ≠ [] ∧ ph ≠ "localhost".data ∧ ph ≠ "127.0.0.1".data
        · rw [if_pos hc]
        · rw [if_neg hc]

theorem rewriteDomain_id {o : RewriteOptions} {ph : List Char} {c : Cookie}
    (h : truthyOpt c.domain = none) : rewriteDomain o ph c = c := by
  unfold rewriteDomain
  rcases hd : c.domain with _ | d
  · rfl
  · dsimp only
    rw [hd] at h
    have hde : d = [] := by
      by_contra hne
      rw [show truthyOpt (some d) = some d from by simp [truthyOpt, hne]] at h
      exact absurd h (by simp)
    rw [if_pos hde]

theorem wf_defaultPath {c : Cookie} (hwf : CookieWF c) : CookieWF (defaultPath c) := by
  unfold defaultPath
  rcases hp : c.path with _ | p
  · exact ⟨hwf.nameTrim, hwf.nameNoSemi, hwf.nameNoEq, hwf.valueNoSemi, hwf.nvTrim,
      hwf.domainWF, (fun q hq => by
        rw [← Option.some.inj hq]
        exact ⟨by decide, by decide⟩), hwf.expiresWF, hwf.sameSiteWF⟩
  · dsimp only
    by_cases hpe : p = []
    · rw [if_pos hpe]
      exact ⟨hwf.nameTrim, hwf.nameNoSemi, hwf.nameNoEq, hwf.valueNoSemi, hwf.nvTrim,
        hwf.domainWF, (fun q hq => by
          rw [← Option.some.inj hq]
          exact ⟨by decide, by decide⟩), hwf.expiresWF, hwf.sameSiteWF⟩
    · rw [if_neg hpe]
      exact hwf

theorem wf_rewriteSecure {b : Bool} {c : Cookie} (hwf : CookieWF c) :
    CookieWF (rewriteSecure b c) := by
  unfold rewriteSecure
  by_cases hb : ¬b = true ∧ c.secure = true
  · rw [if_pos hb]
    by_cases hss : c.sameSite = some "none".data
    · rw [if_pos (by exact hss)]
      exact ⟨hwf.nameTrim, hwf.nameNoSemi, hwf.nameNoEq, hwf.valueNoSemi, hwf.nvTrim,
        hwf.domainWF, hwf.pathWF, hwf.expiresWF, (fun v hv => by
          rw [← Option.some.inj hv]
          exact ⟨by decide, by decide, by decide⟩)⟩
    · rw [if_neg (by exact hss)]
      exact ⟨hwf.nameTrim, hwf.nameNoSemi, hwf.nameNoEq, hwf.valueNoSemi, hwf.nvTrim,
        hwf.domainWF, hwf.pathWF, hwf.expiresWF, hwf.sameSiteWF⟩
  · rw [if_neg hb]
    exact hwf

theorem wf_rewriteSameSite {b : Bool} {c : Cookie} (hwf : CookieWF c) :
    CookieWF (rewriteSameSite b c) := by
  unfold rewriteSameSite
  split
  · exact ⟨hwf.nameTrim, hwf.nameNoSemi, hwf.nameNoEq, hwf.valueNoSemi, hwf.nvTrim,
      hwf.domainWF, hwf.pathWF, hwf.expiresWF, (fun v hv => by
        rw [← Option.some.inj hv]
        exact ⟨by decide, by decide, by decide⟩)⟩
  · exact hwf

theorem wf_swRewriteDomain {o : SwRewriteOptions} {c : Cookie} (hwf : CookieWF c)
    (hph : ∀ ph, o.proxyHostname = some ph → ';' ∉ ph ∧ jsTrim ph = ph) :
    CookieWF (swRewriteDomain o c) := by
  have hdropped : CookieWF { c with domain := none } :=
    ⟨hwf.nameTrim, hwf.nameNoSemi, hwf.nameNoEq, hwf.valueNoSemi, hwf.nvTrim,
      (fun d hd => nomatch hd), hwf.pathWF, hwf.expiresWF, hwf.sameSiteWF⟩
  unfold swRewriteDomain
  rcases c.domain with _ | d
  · exact hwf
  · dsimp only
    by_cases hd : d = []
    · rw [if_pos hd]
      exact hwf
    · rw [if_neg hd]
      rcases hpo : o.proxyHostname with _ | ph
      · exact hdropped
      · dsimp only
        obtain ⟨hsemi, htrim⟩ := hph ph hpo
        by_cases hc : ph ≠ [] ∧ ph ≠ "localhost".data ∧ ph ≠ "127.0.0.1".data
        · rw [if_pos hc]
          have hdotted : ';' ∉ (if jsStartsWith ".".data ph then ph else '.' :: ph) ∧
              jsTrim (if jsStartsWith ".".data ph then ph else '.' :: ph) =
                (if jsStartsWith ".".data ph then ph else '.' :: ph) := by
            by_cases hsw : jsStartsWith ".".data ph = true
            · simp only [if_pos hsw]
              exact ⟨hsemi, htrim⟩
            · simp only [if_neg hsw]
              constructor
              · intro hm
                rcases List.mem_cons.mp hm with h1 | h1
                · exact absurd h1.symm (by decide)
                · exact hsemi h1
              · apply jsTrim_eq_self
                · exact ltrimmed_cons (by decide)
                · unfold rtrimmed
                  rw [List.reverse_cons]
                  cases hpr : ph.reverse with
                  | nil =>
                    exact absurd (by simpa using congrArg List.reverse hpr) hc.1
                  | cons y t =>
                    have hpl : ltrimmed ph.reverse := (trim_fix_split htrim).2
                    rw [hpr] at hpl
                    exact ltrimmed_append hpl (by simp)
          exact ⟨hwf.nameTrim, hwf.nameNoSemi, hwf.nameNoEq, hwf.valueNoSemi, hwf.nvTrim,
            (fun d2 hd2 => by
              rw [← Option.some.inj hd2]
              exact ⟨hdotted.2, hdotted.1⟩),
            hwf.pathWF, hwf.expiresWF, hwf.sameSiteWF⟩
        · rw [if_neg hc]
          exact hdropped

end RewriteSteps

section Idempotence

theorem update_domain_self (x : Cookie) : { x with domain := x.domain } = x := rfl

theorem swRewriteDomain_none {o : SwRewriteOptions} {c : Cookie}
    (h : c.domain = none) : swRewriteDomain o c = c := by
  unfold swRewriteDomain
  rw [h]

theorem swRewriteDomain_empty {o : SwRewriteOptions} {c : Cookie}
    (h : c.domain = some []) : swRewriteDomain o c = c := by
  unfold swRewriteDomain
  rw [h]
  dsimp only
  rw [if_pos rfl]

theorem swRewriteDomain_set {o : SwRewriteOptions} {c : Cookie} {d ph : List Char}
    (hd : c.domain = some d) (hdne : d ≠ []) (hpo : o.proxyHostname = some ph)
    (hc : ph ≠ [] ∧ ph ≠ "localhost".data ∧ ph ≠ "127.0.0.1".data) :
    swRewriteDomain o c =
      { c with domain := some (if jsStartsWith ".".data ph then ph else '.' :: ph) } := by
  unfold swRewriteDomain
  rw [hd]
  dsimp only
  rw [if_neg hdne, hpo]
  dsimp only
  rw [if_pos hc]

theorem swRewriteDomain_out (o : SwRewriteOptions) (c : Cookie) :
    truthyOpt (swRewriteDomain o c).domain = none
    ∨ (∃ ph, o.proxyHostname = some ph ∧
        (ph ≠ [] ∧ ph ≠ "localhost".data ∧ ph ≠ "127.0.0.1".data) ∧
        truthyOpt (swRewriteDomain o c).domain =
          some (if jsStartsWith ".".data ph then ph else '.' :: ph)) := by
  rcases hd : c.domain with _ | d
  · rw [swRewriteDomain_none hd, hd]
    exact Or.inl rfl
  · by_cases hdne : d = []
    · subst hdne
      rw [swRewriteDomain_empty hd, hd]
      exact Or.inl rfl
    · rcases hpo : o.proxyHostname with _ | ph
      · refine Or.inl ?_
        unfold swRewriteDomain
        rw [hd]
        dsimp only
        rw [if_neg hdne, hpo]
        rfl
      · by_cases hc : ph ≠ [] ∧ ph ≠ "localhost".data ∧ ph ≠ "127.0.0.1".data
        · refine Or.inr ⟨ph, rfl, hc, ?_⟩
          rw [swRewriteDomain_set hd hdne hpo hc]
          have hdotne : (if jsStartsWith ".".data ph then ph else '.' :: ph) ≠ [] := by
            by_cases hsw : jsStartsWith ".".data ph = true
            · rw [if_pos hsw]
              exact hc.1
            · rw [if_neg hsw]
              simp
          show truthyOpt (some _) = some _
          unfold truthyOpt
          dsimp only
          rw [if_neg hdotne]
        · refine Or.inl ?_
          unfold swRewriteDomain
          rw [hd]
          dsimp only
          rw [if_neg hdne, hpo]
          dsimp only
          rw [if_neg hc]
          rfl

theorem sw_rewrite_idem {s : List Char} {o : SwRewriteOptions}
    (hsec : o.isSecureContext = true)
    (hph : ∀ ph, o.proxyHostname = some ph → ';' ∉ ph ∧ jsTrim ph = ph) :
    swRewriteCookie (swRewriteCookie s o) o = swRewriteCookie s o := by
  cases hp : parseCookie s with
  | none =>
    have h1 : swRewriteCookie s o = s := by
      unfold swRewriteCookie
      rw [hp]
    rw [h1]
    exact h1
  | some c =>
    have h1 : swRewriteCookie s o =
        serializeCookie (defaultPath (swRewriteDomain o c)) := by
      unfold swRewriteCookie
      rw [hp]
      dsimp only
      rw [hsec, rewriteSecure_secure, rewriteSameSite_secure]
    have hname1 : (defaultPath (swRewriteDomain o c)).name = c.name := by
      rw [defaultPath_name, swRewriteDomain_name]
    by_cases hcname : c.name = []
    · have hser : serializeCookie (defaultPath (swRewriteDomain o c)) = [] := by
        unfold serializeCookie
        rw [if_pos (by rw [hname1, hcname])]
      rw [h1, hser]
      rfl
    · have hwf1 : CookieWF (defaultPath (swRewriteDomain o c)) :=
        wf_defaultPath (wf_swRewriteDomain (parseCookie_wf hp) hph)
      have hname1ne : (defaultPath (swRewriteDomain o c)).name ≠ [] := by
        rw [hname1]
        exact hcname
      have hp2 := parse_serialize hwf1 hname1ne
      rw [h1]
      unfold swRewriteCookie
      rw [hp2]
      dsimp only
      rw [hsec, rewriteSecure_secure, rewriteSameSite_secure]
      obtain ⟨q, hq, hqne⟩ := defaultPath_path (swRewriteDomain o c)
      have hdomval : truthyOpt (defaultPath (swRewriteDomain o c)).domain =
          truthyOpt (swRewriteDomain o c).domain := by
        rw [defaultPath_domain]
      have hdom2 : swRewriteDomain o
          { name := (defaultPath (swRewriteDomain o c)).name
            value := (defaultPath (swRewriteDomain o c)).value
            domain := truthyOpt (defaultPath (swRewriteDomain o c)).domain
            path := truthyOpt (defaultPath (swRewriteDomain o c)).path
            expires := truthyOpt (defaultPath (swRewriteDomain o c)).expires
            maxAge := (defaultPath (swRewriteDomain o c)).maxAge
            secure := (defaultPath (swRewriteDomain o c)).secure
            httpOnly := (defaultPath (swRewriteDomain o c)).httpOnly
            sameSite := truthyOpt (defaultPath (swRewriteDomain o c)).sameSite
            raw := serializeCookie (defaultPath (swRewriteDomain o c)) } =
          { name := (defaultPath (swRewriteDomain o c)).name
            value := (defaultPath (swRewriteDomain o c)).value
            domain := truthyOpt (defaultPath (swRewriteDomain o c)).domain
            path := truthyOpt (defaultPath (swRewriteDomain o c)).path
            expires := truthyOpt (defaultPath (swRewriteDomain o c)).expires
            maxAge := (defaultPath (swRewriteDomain o c)).maxAge
            secure := (defaultPath (swRewriteDomain o c)).secure
            httpOnly := (defaultPath (swRewriteDomain o c)).httpOnly
            sameSite := truthyOpt (defaultPath (swRewriteDomain o c)).sameSite
            raw := serializeCookie (defaultPath (swRewriteDomain o c)) } := by
        rcases swRewriteDomain_out o c with hnone | ⟨ph, hpo, hc, hdotted⟩
        · exact swRewriteDomain_none (by
            show truthyOpt (defaultPath (swRewriteDomain o c)).domain = none
            rw [hdomval, hnone])
        · have hdotne : (if jsStartsWith ".".data ph then ph else '.' :: ph) ≠ [] := by
            by_cases hsw : jsStartsWith ".".data ph = true
            · rw [if_pos hsw]
              exact hc.1
            · rw [if_neg hsw]
              simp
          have hdeq : truthyOpt (defaultPath (swRewriteDomain o c)).domain =
              some (if jsStartsWith ".".data ph then ph else '.' :: ph) := by
            rw [hdomval, hdotted]
          rw [swRewriteDomain_set hdeq hdotne hpo hc, ← hdeq, update_domain_self]
      rw [hdom2]
      rw [defaultPath_of_truthy (show _ = some q from by
        show truthyOpt (defaultPath (swRewriteDomain o c)).path = some q
        rw [hq]
        unfold truthyOpt
        dsimp only
        rw [if_neg hqne]) hqne]
      exact serialize_norm (defaultPath (swRewriteDomain o c)) _

theorem backend_rewrite_idem {s : List Char} {o : RewriteOptions} {c : Cookie}
    (hsec : o.isSecureContext = true) (hp : parseCookie s = some c)
    (hdom : truthyOpt c.domain = none) :
    rewriteCookie (rewriteCookie s o) o = rewriteCookie s o := by
  have h1 : rewriteCookie s o = serializeCookie (defaultPath c) := by
    unfold rewriteCookie
    rw [hp]
    dsimp only
    rw [hsec, rewriteSecure_secure, rewriteSameSite_secure, rewriteDomain_id hdom]
  by_cases hcname : c.name = []
  · have hser : serializeCookie (defaultPath c) = [] := by
      unfold serializeCookie
      rw [if_pos (by rw [defaultPath_name, hcname])]
    rw [h1, hser]
    rfl
  · have hwf1 : CookieWF (defaultPath c) := wf_defaultPath (parseCookie_wf hp)
    have hname1ne : (defaultPath c).name ≠ [] := by
      rw [defaultPath_name]
      exact hcname
    have hp2 := parse_serialize hwf1 hname1ne
    rw [h1]
    unfold rewriteCookie
    rw [hp2]
    dsimp only
    rw [hsec, rewriteSecure_secure, rewriteSameSite_secure]
    rw [rewriteDomain_id (show truthyOpt _ = none from by
      show truthyOpt (truthyOpt (defaultPath c).domain) = none
      rw [defaultPath_domain, hdom]
      rfl)]
    obtain ⟨q, hq, hqne⟩ := defaultPath_path c
    rw [defaultPath_of_truthy (show _ = some q from by
      show truthyOpt (defaultPath c).path = some q
      rw [hq]
      unfold truthyOpt
      dsimp only
      rw [if_neg hqne]) hqne]
    exact serialize_norm (defaultPath c) _

end Idempotence

section TransportInv

/-- Structural invariant of the two-call system, with x the phase of one call
and y the phase of the other: the in-flight promise exists exactly while a
body runs, at most one body runs at a time, a setTransport executes exactly
while a body sits at its setTransport await, and no overlapping setTransport
has ever been observed. -/
def Inv0 (g : TransportGlobals) (x y : CallPhase) : Prop :=
  g.promiseActive = (inBody x || inBody y) ∧
  ¬(inBody x = true ∧ inBody y = true) ∧
  g.setInFlight = (decide (x = CallPhase.inBodySet) || decide (y = CallPhase.inBodySet)) ∧
  g.overlap = false

@[simp] theorem inBody_start : inBody CallPhase.start = false := rfl

@[simp] theorem inBody_waiting : inBody CallPhase.waitingPromise = false := rfl

@[simp] theorem inBody_get : inBody CallPhase.inBodyGet = true := rfl

@[simp] theorem inBody_set : inBody CallPhase.inBodySet = true := rfl

@[simp] theorem inBody_done : inBody CallPhase.done = false := rfl

@[simp] theorem inBody_failed : inBody CallPhase.failed = false := rfl

theorem Inv0_swap {g : TransportGlobals} {x y : CallPhase} (h : Inv0 g x y) :
    Inv0 g y x := by
  obtain ⟨h1, h2, h3, h4⟩ := h
  exact ⟨by rw [h1, Bool.or_comm], fun hc => h2 ⟨hc.2, hc.1⟩, by rw [h3, Bool.or_comm], h4⟩

theorem stepCall_inv0 {url : List Char} {outcomes : Nat → Bool} {g : TransportGlobals}
    {x y : CallPhase} (h : Inv0 g x y) :
    Inv0 (stepCall url outcomes g x).1 (stepCall url outcomes g x).2 y := by
  obtain ⟨h1, h2, h3, h4⟩ := h
  cases x with
  | start =>
    simp only [stepCall]
    split
    · exact ⟨by simpa using h1, by simp, by simpa using h3, h4⟩
    · split
      · exact ⟨by simpa using h1, by simp, by simpa using h3, h4⟩
      · next hpa =>
        have hy : inBody y = false := by
          rcases hb : inBody y
          · rfl
          · rw [h1, hb, Bool.or_true] at hpa
            exact absurd rfl hpa
        refine ⟨by simp [hy], by simp [hy], by simpa using h3, h4⟩
  | waitingPromise =>
    simp only [stepCall]
    split
    · exact ⟨h1, h2, h3, h4⟩
    · exact ⟨by simpa using h1, by simp, by simpa using h3, h4⟩
  | inBodyGet =>
    have hy : inBody y = false := by
      rcases hb : inBody y
      · rfl
      · exact absurd ⟨rfl, hb⟩ h2
    have hyset : decide (y = CallPhase.inBodySet) = false := by
      rcases y <;> simp_all [inBody]
    simp only [stepCall]
    split
    · refine ⟨by simpa using h1, by simp [hy], by simp, ?_⟩
      rw [h3, hyset]
      simpa using h4
    · exact ⟨by simp [hy], by simp, by rw [h3]; simp [hyset], h4⟩
  | inBodySet =>
    have hy : inBody y = false := by
      rcases hb : inBody y
      · rfl
      · exact absurd ⟨rfl, hb⟩ h2
    have hyset : decide (y = CallPhase.inBodySet) = false := by
      rcases y <;> simp_all [inBody]
    simp only [stepCall]
    split
    · exact ⟨by simp [hy], by simp, by simp [hyset], h4⟩
    · exact ⟨by simp [hy], by simp, by simp [hyset], h4⟩
  | done =>
    simp only [stepCall]
    exact ⟨h1, h2, h3, h4⟩
  | failed =>
    simp only [stepCall]
    exact ⟨h1, h2, h3, h4⟩

/-- A call that is not running the body and has not returned. -/
def idleOk (pc : CallPhase) : Prop :=
  pc = CallPhase.start ∨ pc = CallPhase.waitingPromise

/-- Call phases possible before any setTransport has started. -/
def p0Ok (pc : CallPhase) : Prop :=
  pc = CallPhase.start ∨ pc = CallPhase.waitingPromise ∨ pc = CallPhase.inBodyGet

/-- Call phases possible after the single successful setTransport. -/
def p2Ok (pc : CallPhase) : Prop :=
  pc = CallPhase.start ∨ pc = CallPhase.waitingPromise ∨ pc = CallPhase.done

/-- Phase invariant of the two-call system when every setTransport succeeds:
either no setTransport has started (and the tunnel URL is unrecorded), or the
single setTransport is executing inside one body while the other call is
idle, or the single setTransport has completed and configuration is
recorded. -/
def InvS (url : List Char) (g : TransportGlobals) (x y : CallPhase) : Prop :=
  (g.setCount = 0 ∧ g.lastWispUrl = none ∧ g.transportConfigured = false ∧
    p0Ok x ∧ p0Ok y ∧
    (x = CallPhase.waitingPromise → g.promiseActive = true) ∧
    (y = CallPhase.waitingPromise → g.promiseActive = true)) ∨
  (g.setCount = 1 ∧ g.lastWispUrl = none ∧ g.transportConfigured = false ∧
    ((x = CallPhase.inBodySet ∧ idleOk y) ∨ (y = CallPhase.inBodySet ∧ idleOk x))) ∨
  (g.setCount = 1 ∧ g.lastWispUrl = some url ∧ g.transportConfigured = true ∧
    g.currentTransport = some TRANSPORT_PATH ∧ p2Ok x ∧ p2Ok y)

theorem InvS_swap {url : List Char} {g : TransportGlobals} {x y : CallPhase}
    (h : InvS url g x y) : InvS url g y x := by
  rcases h with ⟨h1, h2, h3, h4, h5, h6, h7⟩ | ⟨h1, h2, h3, h4⟩ | ⟨h1, h2, h3, h4, h5, h6⟩
  · exact Or.inl ⟨h1, h2, h3, h5, h4, h7, h6⟩
  · exact Or.inr (Or.inl ⟨h1, h2, h3, h4.symm⟩)
  · exact Or.inr (Or.inr ⟨h1, h2, h3, h4, h6, h5⟩)

theorem stepCall_invS {url : List Char} {outcomes : Nat → Bool} {g : TransportGlobals}
    {x y : CallPhase} (hout : ∀ k, outcomes k = true)
    (h0 : Inv0 g x y) (h : InvS url g x y) :
    InvS url (stepCall url outcomes g x).1 (stepCall url outcomes g x).2 y := by
  obtain ⟨i1, i2, i3, i4⟩ := h0
  cases x with
  | start =>
    simp only [stepCall]
    split
    · next hA =>
      rcases h with ⟨h1, h2, h3, _⟩ | ⟨h1, h2, h3, _⟩ | ⟨h1, h2, h3, h4, h5, h6⟩
      · rw [h3] at hA
        exact absurd hA.1 (by simp)
      · rw [h3] at hA
        exact absurd hA.1 (by simp)
      · exact Or.inr (Or.inr ⟨h1, h2, h3, h4, Or.inr (Or.inr rfl), h6⟩)
    · split
      · next hpa =>
        have hpa' : g.promiseActive = true := hpa
        rcases h with ⟨h1, h2, h3, h4, h5, h6, h7⟩ | ⟨h1, h2, h3, h4⟩ |
          ⟨h1, h2, h3, h4, h5, h6⟩
        · exact Or.inl ⟨h1, h2, h3, Or.inr (Or.inl rfl), h5, fun _ => hpa', h7⟩
        · rcases h4 with ⟨hx, _⟩ | ⟨hy, hx⟩
          · exact absurd hx (by simp)
          · exact Or.inr (Or.inl ⟨h1, h2, h3, Or.inr ⟨hy, Or.inr rfl⟩⟩)
        · exact Or.inr (Or.inr ⟨h1, h2, h3, h4, Or.inr (Or.inl rfl), h6⟩)
      · next hA hpa =>
        have hpa' : g.promiseActive = false := by
          rcases hb : g.promiseActive
          · rfl
          · exact absurd hb.symm (by simpa using hpa)
        rcases h with ⟨h1, h2, h3, h4, h5, h6, h7⟩ | ⟨h1, h2, h3, h4⟩ |
          ⟨h1, h2, h3, h4, h5, h6⟩
        · refine Or.inl ⟨h1, h2, h3, Or.inr (Or.inr rfl), h5, by simp, ?_⟩
          intro hyw
          rfl
        · rcases h4 with ⟨hx, _⟩ | ⟨hy, _⟩
          · exact absurd hx (by simp)
          · rw [i1, hy] at hpa'
            simp at hpa'
        · exact absurd ⟨h3, h2⟩ hA
  | waitingPromise =>
    simp only [stepCall]
    split
    · exact h
    · next hpa =>
      have hpa' : g.promiseActive = false := by
        rcases hb : g.promiseActive
        · rfl
        · exact absurd hb.symm (by simpa using hpa)
      rcases h with ⟨h1, h2, h3, h4, h5, h6, h7⟩ | ⟨h1, h2, h3, h4⟩ |
        ⟨h1, h2, h3, h4, h5, h6⟩
      · rw [h6 rfl] at hpa'
        exact absurd hpa' (by simp)
      · rcases h4 with ⟨hx, _⟩ | ⟨hy, _⟩
        · exact absurd hx (by simp)
        · rw [i1, hy] at hpa'
          simp at hpa'
      · exact Or.inr (Or.inr ⟨h1, h2, h3, h4, Or.inr (Or.inr rfl), h6⟩)
  | inBodyGet =>
    have hynb : inBody y = false := by
      rcases hb : inBody y
      · rfl
      · exact absurd ⟨rfl, hb⟩ i2
    rcases h with ⟨h1, h2, h3, h4, h5, h6, h7⟩ | ⟨h1, h2, h3, h4⟩ |
      ⟨h1, h2, h3, h4, h5, h6⟩
    · simp only [stepCall]
      split
      · refine Or.inr (Or.inl ⟨by rw [h1], h2, h3, Or.inl ⟨rfl, ?_⟩⟩)
        rcases h5 with hy | hy | hy
        · exact Or.inl hy
        · exact Or.inr hy
        · rw [hy] at hynb
          simp at hynb
      · next hns =>
        rw [not_or] at hns
        have := hns.2
        rw [h2] at this
        simp at this
    · rcases h4 with ⟨hx, _⟩ | ⟨_, hx⟩
      · exact absurd hx (by simp)
      · rcases hx with hx | hx <;> simp at hx
    · rcases h5 with hx | hx | hx <;> simp at hx
  | inBodySet =>
    have hynb : inBody y = false := by
      rcases hb : inBody y
      · rfl
      · exact absurd ⟨rfl, hb⟩ i2
    rcases h with ⟨h1, h2, h3, h4, h5, h6, h7⟩ | ⟨h1, h2, h3, h4⟩ |
      ⟨h1, h2, h3, h4, h5, h6⟩
    · rcases h4 with hx | hx | hx <;> simp at hx
    · simp only [stepCall]
      split
      · refine Or.inr (Or.inr ⟨h1, rfl, rfl, rfl, Or.inr (Or.inr rfl), ?_⟩)
        rcases h4 with ⟨_, hy⟩ | ⟨hy, _⟩
        · rcases hy with hy | hy
          · exact Or.inl hy
          · exact Or.inr (Or.inl hy)
        · rw [hy] at hynb
          simp at hynb
      · next hfail =>
        rw [hout (g.setCount - 1)] at hfail
        simp at hfail
    · rcases h5 with hx | hx | hx <;> simp at hx
  | done =>
    simp only [stepCall]
    exact h
  | failed =>
    simp only [stepCall]
    rcases h with ⟨h1, h2, h3, h4, h5, h6, h7⟩ | ⟨h1, h2, h3, h4⟩ |
      ⟨h1, h2, h3, h4, h5, h6⟩
    · rcases h4 with hx | hx | hx <;> simp at hx
    · rcases h4 with ⟨hx, _⟩ | ⟨_, hx⟩
      · simp at hx
      · rcases hx with hx | hx <;> simp at hx
    · rcases h5 with hx | hx | hx <;> simp at hx

theorem stepSys_inv0 {url : List Char} {outcomes : Nat → Bool} {choice : Bool}
    {s : TransportSys} (h : Inv0 s.g s.a s.b) :
    Inv0 (stepSys url outcomes choice s).g (stepSys url outcomes choice s).a
      (stepSys url outcomes choice s).b := by
  unfold stepSys
  by_cases hc : choice = true
  · rw [if_pos hc]
    exact stepCall_inv0 h
  · rw [if_neg hc]
    exact Inv0_swap (stepCall_inv0 (Inv0_swap h))

theorem stepSys_invS {url : List Char} {outcomes : Nat → Bool} {choice : Bool}
    {s : TransportSys} (hout : ∀ k, outcomes k = true)
    (h0 : Inv0 s.g s.a s.b) (h : InvS url s.g s.a s.b) :
    InvS url (stepSys url outcomes choice s).g (stepSys url outcomes choice s).a
      (stepSys url outcomes choice s).b := by
  unfold stepSys
  by_cases hc : choice = true
  · rw [if_pos hc]
    exact stepCall_invS hout h0 h
  · rw [if_neg hc]
    exact InvS_swap (stepCall_invS hout (Inv0_swap h0) (InvS_swap h))

theorem runSched_inv0 {url : List Char} {outcomes : Nat → Bool}
    (sched : List Bool) (s : TransportSys) (h : Inv0 s.g s.a s.b) :
    Inv0 (runSched url outcomes sched s).g (runSched url outcomes sched s).a
      (runSched url outcomes sched s).b := by
  induction sched generalizing s with
  | nil => exact h
  | cons choice rest ih =>
    unfold runSched
    exact ih _ (stepSys_inv0 h)

theorem runSched_invS {url : List Char} {outcomes : Nat → Bool}
    (hout : ∀ k, outcomes k = true) (sched : List Bool) (s : TransportSys)
    (h0 : Inv0 s.g s.a s.b) (h : InvS url s.g s.a s.b) :
    InvS url (runSched url outcomes sched s).g (runSched url outcomes sched s).a
      (runSched url outcomes sched s).b := by
  induction sched generalizing s with
  | nil => exact h
  | cons choice rest ih =>
    unfold runSched
    exact ih _ (stepSys_inv0 h0) (stepSys_invS hout h0 h)

theorem transportInit_inv0 (ct : Option (List Char)) :
    Inv0 (transportInit ct).g (transportInit ct).a (transportInit ct).b := by
  exact ⟨rfl, by simp [transportInit], rfl, rfl⟩

theorem transportInit_invS (url : List Char) (ct : Option (List Char)) :
    InvS url (transportInit ct).g (transportInit ct).a (transportInit ct).b := by
  exact Or.inl ⟨rfl, rfl, rfl, Or.inl rfl, Or.inl rfl, by simp [transportInit],
    by simp [transportInit]⟩

end TransportInv

section NameFrames

theorem applyAttr_name (c : Cookie) (a : List Char) : (applyAttr c a).name = c.name := by
  simp only [applyAttr]
  split
  · rfl
  · split
    · rfl
    · split
      · rfl
      · split
        · rfl
        · split
          · rfl
          · split
            · rfl
            · split
              · rfl
              · rfl

theorem foldl_applyAttr_name (attrs : List (List Char)) (c : Cookie) :
    (attrs.foldl applyAttr c).name = c.name := by
  induction attrs generalizing c with
  | nil => rfl
  | cons a rest ih =>
    rw [List.foldl_cons, ih, applyAttr_name]

theorem rewriteDomain_name (o : RewriteOptions) (ph : List Char) (c : Cookie) :
    (rewriteDomain o ph c).name = c.name := by
  unfold rewriteDomain
  rcases c.domain with _ | d
  · rfl
  · dsimp only
    by_cases hd : d = []
    · rw [if_pos hd]
    · rw [if_neg hd]
      rcases o.targetOrigin with _ | t
      · rfl
      · dsimp only
        by_cases ht : t = []
        · rw [if_pos ht]
        · rw [if_neg ht]
          rcases urlHostname t with _ | th
          · rfl
          · dsimp only
            split
            · split
              · rfl
              · rfl
            · rfl

theorem rewriteSecure_name (b : Bool) (c : Cookie) : (rewriteSecure b c).name = c.name := by
  unfold rewriteSecure
  split
  · dsimp only
    split
    · rfl
    · rfl
  · rfl

theorem rewriteSameSite_name (b : Bool) (c : Cookie) :
    (rewriteSameSite b c).name = c.name := by
  unfold rewriteSameSite
  split
  · rfl
  · rfl

end NameFrames

section JSTotality

theorem rewriteCookieJS_ok (s : List Char) (a : JSArg RewriteOptions)
    (ha : a ≠ JSArg.null) : ∃ r, rewriteCookieJS s a = JSOutcome.ok r := by
  cases a with
  | undef => exact ⟨_, rfl⟩
  | null => exact absurd rfl ha
  | value o => exact ⟨_, rfl⟩

theorem mapThrow_ok {f : List Char → JSOutcome (List Char)}
    (hf : ∀ c, ∃ r, f c = JSOutcome.ok r) (l : List (List Char)) :
    ∃ rs, mapThrow f l = JSOutcome.ok rs := by
  induction l with
  | nil => exact ⟨[], rfl⟩
  | cons c rest ih =>
    obtain ⟨r, hr⟩ := hf c
    obtain ⟨rs, hrs⟩ := ih
    refine ⟨r :: rs, ?_⟩
    unfold mapThrow
    rw [hr, hrs]

theorem rewriteCookiesJS_ok (cookies : List (List Char)) (a : JSArg RewriteOptions)
    (ha : a ≠ JSArg.null) :
    ∃ rs, rewriteCookiesJS (JSArg.value cookies) a = JSOutcome.ok rs := by
  obtain ⟨rs, hrs⟩ := mapThrow_ok (fun c => rewriteCookieJS_ok c a ha) cookies
  refine ⟨rs.filter (fun s => !s.isEmpty), ?_⟩
  unfold rewriteCookiesJS
  dsimp only
  rw [hrs]

end JSTotality

section Claims

/-- C1: cookie round-trip.  For every Set-Cookie string that parseCookie
accepts with a non-empty name, whose recognised string attributes are not
present-but-empty, and whose Max-Age (when an exact integer) lies in the
range JS numbers represent exactly, serializing the parsed cookie and parsing
it again reproduces the same name, value and recognised attribute fields;
serializeCookie emits the attributes in the fixed order Domain, Path,
Expires, Max-Age, SameSite, Secure, HttpOnly. -/
theorem cookie_roundtrip_C1 {s : List Char} {c : Cookie}
    (hparse : parseCookie s = some c) (hname : c.name ≠ [])
    (hdomain : c.domain ≠ some []) (hpath : c.path ≠ some [])
    (hexpires : c.expires ≠ some []) (hsameSite : c.sameSite ≠ some [])
    (hmax : ∀ i : Int, c.maxAge = some (some i) → i.natAbs < 2 ^ 53) :
    ∃ c' : Cookie, parseCookie (serializeCookie c) = some c' ∧
      c'.name = c.name ∧ c'.value = c.value ∧ c'.domain = c.domain ∧
      c'.path = c.path ∧ c'.expires = c.expires ∧ c'.maxAge = c.maxAge ∧
      c'.secure = c.secure ∧ c'.httpOnly = c.httpOnly ∧ c'.sameSite = c.sameSite := by
  refine ⟨_, parse_serialize (parseCookie_wf hparse) hname,
    rfl, rfl, truthyOpt_of_ne hdomain, truthyOpt_of_ne hpath, truthyOpt_of_ne hexpires,
    rfl, rfl, rfl, truthyOpt_of_ne hsameSite⟩

theorem cookie_roundtrip_C1_witness :
    ∃ c c' : Cookie,
      parseCookie ("sid=abc123; Domain=example.com; Path=/a; Expires=Wed, 21 Oct 2015 07:28:00 GMT; Max-Age=3600; SameSite=None; Secure; HttpOnly".data) = some c ∧
      parseCookie (serializeCookie c) = some c' ∧
      c'.name = c.name ∧ c'.value = c.value ∧ c'.domain = c.domain ∧
      c'.path = c.path ∧ c'.expires = c.expires ∧ c'.maxAge = c.maxAge ∧
      c'.secure = c.secure ∧ c'.httpOnly = c.httpOnly ∧ c'.sameSite = c.sameSite := by
  have hp : parseCookie ("sid=abc123; Domain=example.com; Path=/a; Expires=Wed, 21 Oct 2015 07:28:00 GMT; Max-Age=3600; SameSite=None; Secure; HttpOnly".data) = some
      { name := "sid".data, value := "abc123".data, domain := some "example.com".data
        path := some "/a".data, expires := some "Wed, 21 Oct 2015 07:28:00 GMT".data
        maxAge := some (some 3600), secure := true, httpOnly := true
        sameSite := some "none".data
        raw := "sid=abc123; Domain=example.com; Path=/a; Expires=Wed, 21 Oct 2015 07:28:00 GMT; Max-Age=3600; SameSite=None; Secure; HttpOnly".data } := by
    decide
  obtain ⟨c', h1, h2⟩ := cookie_roundtrip_C1 hp (by decide) (by decide) (by decide)
    (by decide) (by decide) (fun i hi => by
      rw [← Option.some.inj (Option.some.inj hi)]
      decide)
  exact ⟨_, c', hp, h1, h2⟩

/-- C4 counterexample: parseCookie accepts the string "=value" and returns a
cookie whose name is empty, refuting the claim that every parse result has a
non-empty name. -/
theorem cookie_name_C4_counterexample :
    ∃ c : Cookie, parseCookie "=value".data = some c ∧ c.name = [] := by
  refine ⟨{ name := [], value := "value".data, raw := "=value".data }, by decide, rfl⟩

/-- C4 amended: every cookie parseCookie produces either has a non-empty
name, or is mapped to the empty string by serializeCookie, so no nameless
cookie survives to a serialized header. -/
theorem cookie_name_C4 :
    ∀ (s : List Char) (c : Cookie), parseCookie s = some c →
      c.name ≠ [] ∨ serializeCookie c = [] := by
  intro s c _
  by_cases hn : c.name = []
  · refine Or.inr ?_
    unfold serializeCookie
    rw [if_pos hn]
  · exact Or.inl hn

theorem cookie_name_C4_witness :
    (parseCookie "sid=abc".data).isSome = true ∧
    (∀ c : Cookie, parseCookie "sid=abc".data = some c →
      c.name ≠ [] ∨ serializeCookie c = []) :=
  ⟨by decide, fun c hc => cookie_name_C4 "sid=abc".data c hc⟩

/-- C5 counterexample: rewriteCookie called on a parseable cookie string
with a null options argument throws — the default parameter value {} applies
only to undefined, so null survives to the destructuring on line 132 of
src/cookieRewriter.js, which raises a TypeError — refuting the claim that no
operation throws for every options value.  (The parse check on lines 126-130
runs first, so only parseable strings reach the throwing destructuring.) -/
theorem cookie_totality_C5_counterexample :
    (parseCookie "a=b".data).isSome = true ∧
    rewriteCookieJS "a=b".data JSArg.null = JSOutcome.thrown :=
  ⟨by decide, rfl⟩

/-- C5 amended: the cookie operations are total and degrade gracefully on
malformed input — parseCookie returns none on the empty string,
rewriteCookie returns its input unchanged whenever parsing fails (also with
a null options object, since the parse check precedes the options
destructuring), serializeCookie returns the empty string for a nameless
cookie, rewriteCookies returns the empty array for a null or undefined
cookies argument, extractSetCookieHeaders returns the empty array for a null
or undefined headers argument, rewriteHeadersCookies returns a null or
undefined headers argument unchanged, and every one of these calls returns
normally for every non-null options argument; the only throwing combination
is a parseable cookie string together with a null options object. -/
theorem cookie_totality_C5 :
    parseCookie [] = none ∧
    (∀ (s : List Char) (o : RewriteOptions), parseCookie s = none → rewriteCookie s o = s) ∧
    (∀ c : Cookie, c.name = [] → serializeCookie c = []) ∧
    (∀ s : List Char, parseCookie s = none →
      rewriteCookieJS s JSArg.null = JSOutcome.ok s) ∧
    (∀ (s : List Char) (c : Cookie), parseCookie s = some c →
      rewriteCookieJS s JSArg.null = JSOutcome.thrown) ∧
    (∀ (s : List Char) (a : JSArg RewriteOptions), a ≠ JSArg.null →
      ∃ r, rewriteCookieJS s a = JSOutcome.ok r) ∧
    (∀ a : JSArg RewriteOptions, rewriteCookiesJS JSArg.null a = JSOutcome.ok [] ∧
      rewriteCookiesJS JSArg.undef a = JSOutcome.ok []) ∧
    (∀ (cookies : List (List Char)) (a : JSArg RewriteOptions), a ≠ JSArg.null →
      ∃ rs, rewriteCookiesJS (JSArg.value cookies) a = JSOutcome.ok rs) ∧
    (extractSetCookieHeaders JSArg.null = [] ∧
      extractSetCookieHeaders JSArg.undef = []) ∧
    (∀ a : JSArg RewriteOptions,
      rewriteHeadersCookiesJS JSArg.null a = JSOutcome.ok JSArg.null ∧
      rewriteHeadersCookiesJS JSArg.undef a = JSOutcome.ok JSArg.undef) ∧
    (∀ (headers : List (List Char × HeaderValue)) (a : JSArg RewriteOptions),
      a ≠ JSArg.null →
      ∃ hout, rewriteHeadersCookiesJS (JSArg.value headers) a = JSOutcome.ok hout) := by
  refine ⟨rfl, ?_, ?_, ?_, ?_, ?_, fun a => ⟨rfl, rfl⟩, ?_, ⟨rfl, rfl⟩,
    fun a => ⟨rfl, rfl⟩, ?_⟩
  · intro s o hp
    unfold rewriteCookie
    rw [hp]
  · intro c hn
    unfold serializeCookie
    rw [if_pos hn]
  · intro s hp
    unfold rewriteCookieJS
    rw [hp]
  · intro s c hp
    unfold rewriteCookieJS
    rw [hp]
  · intro s a ha
    exact rewriteCookieJS_ok s a ha
  · intro cookies a ha
    exact rewriteCookiesJS_ok cookies a ha
  · intro headers a ha
    unfold rewriteHeadersCookiesJS
    dsimp only
    by_cases hc : 0 < (collectSetCookies headers).length
    · rw [if_pos hc]
      obtain ⟨rs, hrs⟩ := rewriteCookiesJS_ok (collectSetCookies headers) a ha
      rw [hrs]
      exact ⟨_, rfl⟩
    · rw [if_neg hc]
      exact ⟨_, rfl⟩

theorem cookie_totality_C5_witness :
    rewriteCookie "???".data { proxyOrigin := none, targetOrigin := none
                               isSecureContext := false } = "???".data ∧
    serializeCookie { name := [], value := "v".data, raw := [] } = [] ∧
    rewriteCookieJS "???".data JSArg.null = JSOutcome.ok "???".data ∧
    rewriteCookieJS "a=b".data JSArg.null = JSOutcome.thrown ∧
    (∃ r, rewriteCookieJS "a=b".data (JSArg.value {}) = JSOutcome.ok r) ∧
    (∃ rs, rewriteCookiesJS (JSArg.value ["a=b".data, "???".data]) JSArg.undef =
      JSOutcome.ok rs) ∧
    (∃ hout, rewriteHeadersCookiesJS
      (JSArg.value [("content-type".data, HeaderValue.str "text/html".data),
                    ("set-cookie".data, HeaderValue.arr ["a=b".data])])
      (JSArg.value {}) = JSOutcome.ok hout) :=
  ⟨cookie_totality_C5.2.1 "???".data _ (by decide),
   cookie_totality_C5.2.2.1 _ rfl,
   cookie_totality_C5.2.2.2.1 "???".data (by decide),
   cookie_totality_C5.2.2.2.2.1 "a=b".data
     { name := "a".data, value := "b".data, raw := "a=b".data } (by decide),
   cookie_totality_C5.2.2.2.2.2.1 "a=b".data (JSArg.value {}) (by decide),
   cookie_totality_C5.2.2.2.2.2.2.2.1 ["a=b".data, "???".data] JSArg.undef (by decide),
   cookie_totality_C5.2.2.2.2.2.2.2.2.2.2
     [("content-type".data, HeaderValue.str "text/html".data),
      ("set-cookie".data, HeaderValue.arr ["a=b".data])]
     (JSArg.value {}) (by decide)⟩

/-- C10: an input whose first segment starts with '=' parses to a cookie with
an empty name, rewriteCookie maps it to the empty string instead of returning
the input, and rewriteCookies consequently drops such an entry from its
output. -/
theorem empty_name_C10 :
    ∀ (s t : List Char) (o : RewriteOptions) (rest : List (List Char)),
      jsTrim ((splitOnChar ';' s).headD []) = '=' :: t →
      (∃ c, parseCookie s = some c ∧ c.name = []) ∧
      rewriteCookie s o = [] ∧
      rewriteCookies (s :: rest) o = rewriteCookies rest o := by
  intro s t o rest hseg
  have hsne : s ≠ [] := by
    intro h
    subst h
    have hfalse : ([] : List Char) = '=' :: t := hseg
    exact List.noConfusion hfalse
  have hparse : parseCookie s = some
      (((splitOnChar ';' s).map jsTrim).tail.foldl applyAttr
        { name := [], value := t, raw := s }) := by
    cases hsp : splitOnChar ';' s with
    | nil => exact absurd hsp (splitOnChar_ne_nil ';' s)
    | cons x xs =>
      have hnv : jsTrim x = '=' :: t := by
        rw [hsp] at hseg
        exact hseg
      unfold parseCookie
      rw [if_neg hsne, hsp]
      simp only [List.map_cons, List.headD, List.tail_cons, hnv]
      rw [if_neg (by simp)]
      rw [show firstIdxOf '=' ('=' :: t) = some 0 from by
        unfold firstIdxOf
        rw [if_pos rfl]]
      simp only [Option.map_some']
      rfl
  have hname : ∀ c, parseCookie s = some c → c.name = [] := by
    intro c hc
    rw [hparse] at hc
    rw [← Option.some.inj hc, foldl_applyAttr_name]
  have hrw : rewriteCookie s o = [] := by
    unfold rewriteCookie
    rw [hparse]
    dsimp only
    unfold serializeCookie
    rw [if_pos (by
      rw [defaultPath_name, rewriteSameSite_name, rewriteSecure_name, rewriteDomain_name,
        foldl_applyAttr_name])]
  refine ⟨⟨_, hparse, hname _ hparse⟩, hrw, ?_⟩
  unfold rewriteCookies
  rw [List.map_cons, List.filter_cons]
  rw [hrw]
  simp

theorem empty_name_C10_witness :
    (∃ c, parseCookie "=value".data = some c ∧ c.name = []) ∧
    rewriteCookie "=value".data {} = [] ∧
    rewriteCookies ["=value".data, "sid=abc".data] {} = rewriteCookies ["sid=abc".data] {} :=
  empty_name_C10 "=value".data "value".data {} ["sid=abc".data] (by decide)

/-- C2 counterexample to rewrite idempotence of the backend rewriter: with a
secure proxy at proxy.local targeting example.com, the first rewrite of
"sid=abc; Domain=example.com" emits Domain=.proxy.local, but a second pass
drops that Domain because .proxy.local no longer matches the target host, so
rewriting is not idempotent even on parseable input. -/
theorem cookie_rewrite_idem_C2_counterexample :
    (parseCookie "sid=abc; Domain=example.com".data).isSome = true ∧
    rewriteCookie (rewriteCookie "sid=abc; Domain=example.com".data
        { proxyOrigin := some "http://proxy.local".data
          targetOrigin := some "https://example.com".data
          isSecureContext := true })
      { proxyOrigin := some "http://proxy.local".data
        targetOrigin := some "https://example.com".data
        isSecureContext := true } ≠
    rewriteCookie "sid=abc; Domain=example.com".data
      { proxyOrigin := some "http://proxy.local".data
        targetOrigin := some "https://example.com".data
        isSecureContext := true } := by
  constructor
  · decide
  · decide

/-- C2 amended: inside the range where JS numbers and their decimal
stringification are exact (a Max-Age of magnitude below 2^53; at 1e21 and
above JS prints exponential notation, whose reparse changes the value, so
idempotence fails there too), the service-worker rewriter is idempotent in a
secure context for every well-formed proxy hostname, and the backend
rewriter is idempotent in a secure context on cookies that carry no truthy
Domain attribute (the general non-idempotence of the backend is its Domain
rewriting). -/
theorem cookie_rewrite_idem_C2 :
    (∀ (s : List Char) (o : SwRewriteOptions), o.isSecureContext = true →
      (∀ ph, o.proxyHostname = some ph → ';' ∉ ph ∧ jsTrim ph = ph) →
      (∀ (c : Cookie) (i : Int), parseCookie s = some c →
        c.maxAge = some (some i) → i.natAbs < 2 ^ 53) →
      swRewriteCookie (swRewriteCookie s o) o = swRewriteCookie s o) ∧
    (∀ (s : List Char) (o : RewriteOptions) (c : Cookie), o.isSecureContext = true →
      parseCookie s = some c → truthyOpt c.domain = none →
      (∀ i : Int, c.maxAge = some (some i) → i.natAbs < 2 ^ 53) →
      rewriteCookie (rewriteCookie s o) o = rewriteCookie s o) := by
  constructor
  · intro s o hsec hph _hmax
    exact sw_rewrite_idem hsec hph
  · intro s o c hsec hp hdom _hmax
    exact backend_rewrite_idem hsec hp hdom

theorem cookie_rewrite_idem_C2_witness :
    swRewriteCookie (swRewriteCookie "sid=abc; Domain=example.com; Max-Age=60".data
        { proxyHostname := some "proxy.local".data, isSecureContext := true })
      { proxyHostname := some "proxy.local".data, isSecureContext := true } =
      swRewriteCookie "sid=abc; Domain=example.com; Max-Age=60".data
        { proxyHostname := some "proxy.local".data, isSecureContext := true } ∧
    rewriteCookie (rewriteCookie "sid=abc; Max-Age=3600".data { isSecureContext := true })
        { isSecureContext := true } =
      rewriteCookie "sid=abc; Max-Age=3600".data { isSecureContext := true } := by
  constructor
  · refine cookie_rewrite_idem_C2.1 _ _ rfl ?_ ?_
    · intro ph hph
      rw [← Option.some.inj hph]
      exact ⟨by decide, by decide⟩
    · intro c i hc hi
      rw [show parseCookie "sid=abc; Domain=example.com; Max-Age=60".data = some
          { name := "sid".data, value := "abc".data, domain := some "example.com".data
            maxAge := some (some 60)
            raw := "sid=abc; Domain=example.com; Max-Age=60".data } from by decide] at hc
      rw [← Option.some.inj hc] at hi
      rw [← Option.some.inj (Option.some.inj hi)]
      decide
  · refine cookie_rewrite_idem_C2.2 _ _
      { name := "sid".data, value := "abc".data, maxAge := some (some 3600)
        raw := "sid=abc; Max-Age=3600".data }
      rfl (by decide) rfl ?_
    intro i hi
    rw [← Option.some.inj (Option.some.inj hi)]
    decide

/-- C3: insecure-context downgrade.  On an HTTP proxy at proxy.local fronting
example.com, the cookie "sid=abc; Domain=example.com; Secure; SameSite=None"
is rewritten to "sid=abc; Domain=.proxy.local; Path=/; SameSite=lax": the
Domain is rewritten to the dotted proxy host, Secure is removed, SameSite
falls back from None to lax, and the default Path=/ is added.  When the
proxy host is localhost or 127.0.0.1 the Domain attribute is removed
entirely instead. -/
theorem insecure_downgrade_C3 {proxyOrigin targetOrigin localhostOrigin ipOrigin : List Char}
    (hpo : urlHostname proxyOrigin = some "proxy.local".data)
    (hto : urlHostname targetOrigin = some "example.com".data)
    (hlo : urlHostname localhostOrigin = some "localhost".data)
    (hio : urlHostname ipOrigin = some "127.0.0.1".data) :
    rewriteCookie "sid=abc; Domain=example.com; Secure; SameSite=None".data
      { proxyOrigin := some proxyOrigin, targetOrigin := some targetOrigin
        isSecureContext := false } =
      "sid=abc; Domain=.proxy.local; Path=/; SameSite=lax".data ∧
    rewriteCookie "sid=abc; Domain=example.com; Secure; SameSite=None".data
      { proxyOrigin := some localhostOrigin, targetOrigin := some targetOrigin
        isSecureContext := false } =
      "sid=abc; Path=/; SameSite=lax".data ∧
    rewriteCookie "sid=abc; Domain=example.com; Secure; SameSite=None".data
      { proxyOrigin := some ipOrigin, targetOrigin := some targetOrigin
        isSecureContext := false } =
      "sid=abc; Path=/; SameSite=lax".data := by
  have hnil : ∀ {u v : List Char}, urlHostname u = some v → u ≠ [] := by
    intro u v hu hne
    subst hne
    exact Option.noConfusion hu
  have hparse : parseCookie "sid=abc; Domain=example.com; Secure; SameSite=None".data =
      some { name := "sid".data, value := "abc".data, domain := some "example.com".data
             secure := true, sameSite := some "none".data
             raw := "sid=abc; Domain=example.com; Secure; SameSite=None".data } := by
    decide
  refine ⟨?_, ?_, ?_⟩
  · have hph : proxyHostnameOf ⟨some proxyOrigin, some targetOrigin, false⟩ =
        "proxy.local".data := by
      unfold proxyHostnameOf
      dsimp only
      rw [if_neg (hnil hpo), hpo]
    have hd1 : rewriteDomain ⟨some proxyOrigin, some targetOrigin, false⟩ "proxy.local".data
        { name := "sid".data, value := "abc".data, domain := some "example.com".data
          secure := true, sameSite := some "none".data
          raw := "sid=abc; Domain=example.com; Secure; SameSite=None".data } =
        { name := "sid".data, value := "abc".data, domain := some ".proxy.local".data
          secure := true, sameSite := some "none".data
          raw := "sid=abc; Domain=example.com; Secure; SameSite=None".data } := by
      unfold rewriteDomain
      dsimp only
      rw [if_neg (show ¬("example.com".data = ([] : List Char)) by decide)]
      rw [if_neg (hnil hto), hto]
      dsimp only
      rw [if_pos (by decide), if_pos (by decide)]
    unfold rewriteCookie
    rw [hparse]
    dsimp only
    rw [hph, hd1]
    decide
  · have hph : proxyHostnameOf ⟨some localhostOrigin, some targetOrigin, false⟩ =
        "localhost".data := by
      unfold proxyHostnameOf
      dsimp only
      rw [if_neg (hnil hlo), hlo]
    have hd1 : rewriteDomain ⟨some localhostOrigin, some targetOrigin, false⟩ "localhost".data
        { name := "sid".data, value := "abc".data, domain := some "example.com".data
          secure := true, sameSite := some "none".data
          raw := "sid=abc; Domain=example.com; Secure; SameSite=None".data } =
        { name := "sid".data, value := "abc".data, domain := none
          secure := true, sameSite := some "none".data
          raw := "sid=abc; Domain=example.com; Secure; SameSite=None".data } := by
      unfold rewriteDomain
      dsimp only
      rw [if_neg (show ¬("example.com".data = ([] : List Char)) by decide)]
      rw [if_neg (hnil hto), hto]
      dsimp only
      rw [if_pos (by decide), if_neg (by decide)]
    unfold rewriteCookie
    rw [hparse]
    dsimp only
    rw [hph, hd1]
    decide
  · have hph : proxyHostnameOf ⟨some ipOrigin, some targetOrigin, false⟩ =
        "127.0.0.1".data := by
      unfold proxyHostnameOf
      dsimp only
      rw [if_neg (hnil hio), hio]
    have hd1 : rewriteDomain ⟨some ipOrigin, some targetOrigin, false⟩ "127.0.0.1".data
        { name := "sid".data, value := "abc".data, domain := some "example.com".data
          secure := true, sameSite := some "none".data
          raw := "sid=abc; Domain=example.com; Secure; SameSite=None".data } =
        { name := "sid".data, value := "abc".data, domain := none
          secure := true, sameSite := some "none".data
          raw := "sid=abc; Domain=example.com; Secure; SameSite=None".data } := by
      unfold rewriteDomain
      dsimp only
      rw [if_neg (show ¬("example.com".data = ([] : List Char)) by decide)]
      rw [if_neg (hnil hto), hto]
      dsimp only
      rw [if_pos (by decide), if_neg (by decide)]
    unfold rewriteCookie
    rw [hparse]
    dsimp only
    rw [hph, hd1]
    decide

theorem insecure_downgrade_C3_witness :
    rewriteCookie "sid=abc; Domain=example.com; Secure; SameSite=None".data
      { proxyOrigin := some "http://proxy.local:8080".data
        targetOrigin := some "https://example.com".data
        isSecureContext := false } =
      "sid=abc; Domain=.proxy.local; Path=/; SameSite=lax".data ∧
    rewriteCookie "sid=abc; Domain=example.com; Secure; SameSite=None".data
      { proxyOrigin := some "http://localhost:8080".data
        targetOrigin := some "https://example.com".data
        isSecureContext := false } =
      "sid=abc; Path=/; SameSite=lax".data ∧
    rewriteCookie "sid=abc; Domain=example.com; Secure; SameSite=None".data
      { proxyOrigin := some "http://127.0.0.1:8080".data
        targetOrigin := some "https://example.com".data
        isSecureContext := false } =
      "sid=abc; Path=/; SameSite=lax".data :=
  insecure_downgrade_C3 (by decide) (by decide) (by decide) (by decide)

/-- C6: verification-cookie preservation.  cf_clearance and __cf_bm are
recognised verification cookie names while session_id is not; a cookie whose
name is not recognised is returned unchanged unless the preserve-all setting
is on, in which case it is treated exactly like a verification cookie; and
preservation strips the path attribute, forces path=/, appends SameSite=None
when no SameSite attribute is present, and appends Secure on HTTPS. -/
theorem verification_cookie_C6 :
    isVerificationCookie "cf_clearance".data = true ∧
    isVerificationCookie "__cf_bm".data = true ∧
    isVerificationCookie "session_id".data = false ∧
    (∀ (https : Bool) (s : List Char), preserveCookieName s = "session_id".data →
      preserveVerificationCookie false https s = s) ∧
    (∀ (https : Bool) (s : List Char), preserveCookieName s = "cf_clearance".data →
      preserveVerificationCookie false https s = preserveVerificationCookie true https s) ∧
    preserveVerificationCookie true true "session_id=x; Path=/app".data =
      "session_id=x; path=/; SameSite=None; Secure".data ∧
    preserveVerificationCookie false true "cf_clearance=t; Path=/challenge".data =
      "cf_clearance=t; path=/; SameSite=None; Secure".data := by
  refine ⟨by decide, by decide, by decide, ?_, ?_, by decide, by decide⟩
  · intro https s hname
    unfold preserveVerificationCookie
    rw [hname]
    dsimp only
    rw [show (!false && !isVerificationCookie "session_id".data) = true from by decide]
    rfl
  · intro https s hname
    unfold preserveVerificationCookie
    rw [hname]
    dsimp only
    rw [show (!false && !isVerificationCookie "cf_clearance".data) = false from by decide]
    rw [show (!true && !isVerificationCookie "cf_clearance".data) = false from by decide]

theorem verification_cookie_C6_witness :
    preserveVerificationCookie false false "session_id=x; Path=/app".data =
      "session_id=x; Path=/app".data ∧
    preserveVerificationCookie false false "cf_clearance=t".data =
      preserveVerificationCookie true false "cf_clearance=t".data :=
  ⟨verification_cookie_C6.2.2.2.1 false "session_id=x; Path=/app".data (by decide),
   verification_cookie_C6.2.2.2.2.1 false "cf_clearance=t".data (by decide)⟩

/-- C7: ad-domain classification.  A URL whose hostname is a listed ad
domain or one of its subdomains is classified as an ad URL, while a hostname
that merely contains a listed domain as a leading string (doubleclick.net
padded into doubleclick.net.evil.com) is not; an unparseable URL is not an
ad URL. -/
theorem ad_domain_C7 :
    isAdUrl "https://pagead.doubleclick.net/ads?x=1".data = true ∧
    isAdUrl "https://doubleclick.net/".data = true ∧
    isAdUrl "https://doubleclick.net.evil.com/".data = false ∧
    isAdUrl "https://example.com/".data = false ∧
    isAdUrl "not a url".data = false := by
  refine ⟨by decide, by decide, by decide, by decide, by decide⟩

/-- C9: upgrade routing.  The server's upgrade handler hands a connection to
the wisp router exactly when the request URL ends with "/wisp/", and every
other upgrade request has its socket ended. -/
theorem upgrade_routing_C9 :
    ∀ url : List Char,
      (upgradeAction url = UpgradeAction.route ↔ ∃ p, url = p ++ "/wisp/".data) ∧
      (upgradeAction url = UpgradeAction.route ∨ upgradeAction url = UpgradeAction.close) := by
  intro url
  constructor
  · constructor
    · intro hr
      by_cases h : jsEndsWith "/wisp/".data url = true
      · exact jsEndsWith_iff.mp h
      · unfold upgradeAction at hr
        rw [if_neg h] at hr
        exact absurd hr (by decide)
    · intro hex
      unfold upgradeAction
      rw [if_pos (jsEndsWith_iff.mpr hex)]
  · unfold upgradeAction
    by_cases h : jsEndsWith "/wisp/".data url = true
    · rw [if_pos h]
      exact Or.inl rfl
    · rw [if_neg h]
      exact Or.inr rfl

theorem upgrade_routing_C9_witness :
    (upgradeAction "/service/wisp/".data = UpgradeAction.route ↔
      ∃ p, "/service/wisp/".data = p ++ "/wisp/".data) ∧
    (upgradeAction "/other".data = UpgradeAction.route ∨
      upgradeAction "/other".data = UpgradeAction.close) :=
  ⟨(upgrade_routing_C9 "/service/wisp/".data).1, (upgrade_routing_C9 "/other".data).2⟩

/-- C8: single-flight transport configuration.  Under every interleaving of
two concurrent ensureTransportConfigured calls from the initial state, no
connection.setTransport call ever starts while another is in flight, and the
shared configuration promise is cleared whenever neither call is inside the
configuration body; when every setTransport attempt succeeds, at most one
setTransport is ever started, and once both calls have returned exactly one
setTransport ran and the state records the configured transport and tunnel
URL. -/
theorem transport_single_flight_C8
    (ct : Option (List Char)) (url : List Char) (outcomes : Nat → Bool)
    (sched : List Bool) :
    (runSched url outcomes sched (transportInit ct)).g.overlap = false ∧
    (inBody (runSched url outcomes sched (transportInit ct)).a = false →
      inBody (runSched url outcomes sched (transportInit ct)).b = false →
      (runSched url outcomes sched (transportInit ct)).g.promiseActive = false) ∧
    ((∀ k, outcomes k = true) →
      (runSched url outcomes sched (transportInit ct)).g.setCount ≤ 1 ∧
      ((runSched url outcomes sched (transportInit ct)).a = CallPhase.done →
        (runSched url outcomes sched (transportInit ct)).b = CallPhase.done →
        (runSched url outcomes sched (transportInit ct)).g.setCount = 1 ∧
        (runSched url outcomes sched (transportInit ct)).g.transportConfigured = true ∧
        (runSched url outcomes sched (transportInit ct)).g.lastWispUrl = some url ∧
        (runSched url outcomes sched (transportInit ct)).g.currentTransport =
          some TRANSPORT_PATH)) := by
  obtain ⟨h1, h2, h3, h4⟩ := runSched_inv0 sched (transportInit ct) (transportInit_inv0 ct)
  refine ⟨h4, ?_, ?_⟩
  · intro ha hb
    rw [h1, ha, hb]
    rfl
  · intro hout
    have hS := runSched_invS hout sched (transportInit ct) (transportInit_inv0 ct)
      (transportInit_invS url ct)
    rcases hS with ⟨hc, hlwu, htc, hpa, hpb, hw1, hw2⟩ | ⟨hc, hlwu, htc, hcase⟩ |
      ⟨hc, hlwu, htc, hct, hra, hrb⟩
    · refine ⟨by omega, fun hda hdb => ?_⟩
      rw [hda] at hpa
      rcases hpa with h | h | h <;> exact absurd h (by decide)
    · refine ⟨by omega, fun hda hdb => ?_⟩
      rcases hcase with ⟨h, hidle⟩ | ⟨h, hidle⟩
      · rw [hda] at h
        exact absurd h (by decide)
      · rw [hdb] at h
        exact absurd h (by decide)
    · exact ⟨by omega, fun hda hdb => ⟨hc, htc, hlwu, hct⟩⟩

theorem transport_single_flight_C8_witness :
    (runSched "wss://proxy.local/wisp/".data (fun _ => true)
      [true, false, true, true, false] (transportInit none)).g.overlap = false ∧
    (runSched "wss://proxy.local/wisp/".data (fun _ => true)
      [true, false, true, true, false] (transportInit none)).g.promiseActive = false ∧
    (runSched "wss://proxy.local/wisp/".data (fun _ => true)
      [true, false, true, true, false] (transportInit none)).g.setCount = 1 ∧
    (runSched "wss://proxy.local/wisp/".data (fun _ => true)
      [true, false, true, true, false] (transportInit none)).g.transportConfigured = true ∧
    (runSched "wss://proxy.local/wisp/".data (fun _ => true)
      [true, false, true, true, false] (transportInit none)).g.lastWispUrl =
      some "wss://proxy.local/wisp/".data := by
  have h := transport_single_flight_C8 none "wss://proxy.local/wisp/".data (fun _ => true)
    [true, false, true, true, false]
  have hd := (h.2.2 (fun _ => rfl)).2 rfl rfl
  exact ⟨h.1, h.2.1 rfl rfl, hd.1, hd.2.1, hd.2.2.1⟩

end Claims

end NovaProxy
